import Mathlib

/-!
Verification of the questions-document backend (src/src-tauri/src/lib.rs).

The Rust code has four pieces: a path resolver `get_questions_path`, the
lazy initializer `init_questions`, and the two commands `save_questions`
and `read_questions` (plus the pure `greet`).  The embedding below models
the filesystem as an explicit state (`FS`), the host-provided locations as
an environment (`Env`), and serde_json as a verified codec over an
inductive `Json` value type: `jparse` is the parser, `ppValue` the
serde-style pretty printer (2-space indentation, `": "` after keys).

Modelling notes, fixed by what the claims need and what the source uses:
- paths are component lists; `Path.parent` is `none` at the root, like
  `std::path::Path::parent`;
- file contents are strings; a write prepends to an association list, so
  earlier entries shadow older ones;
- write, copy and directory creation can fail; which ones fail is part of
  the `FS` state (`failWrites`, `failCopies`, `failCreates`), so that the
  error paths of the Rust code are reachable in the model;
- numbers are integers (serde_json also accepts fractions and exponents;
  no claim depends on floats), and objects keep their members in input
  order with duplicates (serde_json's map only changes which of two equal
  round-trip sides one writes down, not whether they are equal).
-/

namespace QT

/-! ### Paths, host environment, filesystem state -/

/-- A filesystem path, as its list of components. -/
abbrev Path := List String

/-- Parent of a path: `none` at the root, like `std::path::Path::parent`. -/
def Path.parent : Path → Option Path
  | [] => none
  | p :: ps => some ((p :: ps).dropLast)

/-- The host-provided inputs of path resolution: `env::current_dir()`,
`app.path().app_data_dir()` and `app.path().resource_dir()`, each fallible
as in the source. -/
structure Env where
  current_dir : Option Path
  app_data_dir : Except String Path
  resource_dir : Except String Path

/-- The filesystem state: files with their contents, existing directories,
and which write / copy / directory-creation operations fail. -/
structure FS where
  files : List (Path × String)
  dirs : List Path
  failWrites : List Path
  failCopies : List (Path × Path)
  failCreates : List Path

/-- Contents of the file at `p`, if present (first match wins). -/
def lookupFile : List (Path × String) → Path → Option String
  | [], _ => none
  | (q, s) :: rest, p => if q = p then some s else lookupFile rest p

/-- Rust `path.exists()` for a file path. -/
def FS.fileExists (fs : FS) (p : Path) : Bool :=
  (lookupFile fs.files p).isSome

/-- Rust `path.exists()` for a directory path. -/
def FS.dirExists (fs : FS) (p : Path) : Bool :=
  fs.dirs.contains p

/-- Rust `fs::write(p, s)`: fails exactly on the paths in `failWrites`. -/
def FS.writeFile (fs : FS) (p : Path) (s : String) : FS × Except String Unit :=
  if fs.failWrites.contains p then (fs, .error "write failed")
  else ({ fs with files := (p, s) :: fs.files }, .ok ())

/-- Rust `fs::copy(src, dst)`: fails when the source is missing, when the
copy itself is marked failing (an unreadable source, say), or when the
destination is unwritable. -/
def FS.copyFile (fs : FS) (src dst : Path) : FS × Except String Unit :=
  match lookupFile fs.files src with
  | none => (fs, .error "copy failed: no such file")
  | some c =>
    if fs.failCopies.contains (src, dst) || fs.failWrites.contains dst then
      (fs, .error "copy failed")
    else ({ fs with files := (dst, c) :: fs.files }, .ok ())

/-- Rust `fs::create_dir_all(p)`: fails exactly on the paths in
`failCreates`. -/
def FS.createDirAll (fs : FS) (p : Path) : FS × Except String Unit :=
  if fs.failCreates.contains p then (fs, .error "create dir failed")
  else ({ fs with dirs := p :: fs.dirs }, .ok ())

/-! ### JSON values

The value type serde_json's `Value` is modelled by, with the modelling
restrictions listed at the top of the file.  Strings are kept as character
lists, which is what both the printer and the parser traverse. -/

/-- A JSON value. -/
inductive Json where
  | null
  | bool (b : Bool)
  | num (n : Int)
  | str (s : List Char)
  | arr (items : List Json)
  | obj (members : List (List Char × Json))

/-- Characters of a string literal, for readable `Json` constants. -/
def cl (s : String) : List Char := s.data

/-! ### The printer: serde_json `to_string_pretty`

Two-space indentation, a newline after every opening bracket of a
non-empty array or object, `": "` between a key and its value, and the
closing bracket on its own line at the enclosing indentation.  `ind` is
the current indentation width in spaces. -/

/-- The decimal digit character for `d < 10`. -/
def decChar (d : Nat) : Char := Char.ofNat (48 + d)

/-- Decimal digit characters of `n`, most significant first. -/
def ppNat (n : Nat) : List Char :=
  if n = 0 then [decChar 0] else (Nat.digits 10 n).reverse.map decChar

/-- A signed integer, as serde prints an `i64`/`u64`. -/
def ppInt (n : Int) : List Char :=
  if n < 0 then '-' :: ppNat n.natAbs else ppNat n.toNat

/-- The lower-case hexadecimal digit character for `d < 16`. -/
def hexChar (d : Nat) : Char :=
  if d < 10 then Char.ofNat (48 + d) else Char.ofNat (87 + d)

/-- serde's escaping of one string character: the two-character escapes for
quote, backslash, backspace, tab, newline, form feed and carriage return,
a `\u00XX` escape for the remaining control characters, and every other
character verbatim. -/
def escChar (c : Char) : List Char :=
  if c = '"' then ['\\', '"']
  else if c = '\\' then ['\\', '\\']
  else if c = '\x08' then ['\\', 'b']
  else if c = '\t' then ['\\', 't']
  else if c = '\n' then ['\\', 'n']
  else if c = '\x0c' then ['\\', 'f']
  else if c = '\r' then ['\\', 'r']
  else if c.toNat < 32 then
    ['\\', 'u', '0', '0', hexChar (c.toNat / 16), hexChar (c.toNat % 16)]
  else [c]

/-- serde's escaping of a whole string body. -/
def escStr : List Char → List Char
  | [] => []
  | c :: cs => escChar c ++ escStr cs

/-- A quoted, escaped JSON string. -/
def ppStr (s : List Char) : List Char := '"' :: escStr s ++ ['"']

/-- `n` spaces of indentation. -/
def pad (n : Nat) : List Char := List.replicate n ' '

mutual

/-- Pretty-print a value at indentation width `ind`. -/
def ppValue : Nat → Json → List Char
  | _, .null => ['n', 'u', 'l', 'l']
  | _, .bool true => ['t', 'r', 'u', 'e']
  | _, .bool false => ['f', 'a', 'l', 's', 'e']
  | _, .num n => ppInt n
  | _, .str s => ppStr s
  | _, .arr [] => ['[', ']']
  | ind, .arr (x :: xs) =>
    '[' :: '\n' :: pad (ind + 2) ++ ppValue (ind + 2) x
      ++ ppElemsTail (ind + 2) xs ++ '\n' :: pad ind ++ [']']
  | _, .obj [] => ['{', '}']
  | ind, .obj ((k, v) :: ms) =>
    '{' :: '\n' :: pad (ind + 2) ++ ppStr k ++ ':' :: ' ' :: ppValue (ind + 2) v
      ++ ppMembersTail (ind + 2) ms ++ '\n' :: pad ind ++ ['}']

/-- The remaining array items, each after `",\n"` and indentation. -/
def ppElemsTail : Nat → List Json → List Char
  | _, [] => []
  | ind, x :: xs =>
    ',' :: '\n' :: pad ind ++ ppValue ind x ++ ppElemsTail ind xs

/-- The remaining object members, each after `",\n"` and indentation. -/
def ppMembersTail : Nat → List (List Char × Json) → List Char
  | _, [] => []
  | ind, (k, v) :: ms =>
    ',' :: '\n' :: pad ind ++ ppStr k ++ ':' :: ' ' :: ppValue ind v
      ++ ppMembersTail ind ms

end

/-- What serde_json `to_string_pretty` returns for a `Value`. -/
def toStringPretty (v : Json) : String := ⟨ppValue 0 v⟩

/-! ### Parser fuel measures

`jsize` bounds the fuel the parser needs on printed output: every
constructor and every list node costs at least one unit. -/

mutual

/-- Fuel needed to parse a printed value. -/
def jsize : Json → Nat
  | .null => 1
  | .bool _ => 1
  | .num _ => 1
  | .str _ => 1
  | .arr xs => lsize xs + 1
  | .obj ms => msize ms + 1

/-- Fuel needed to parse a printed item list (one unit for the bracket). -/
def lsize : List Json → Nat
  | [] => 1
  | x :: xs => jsize x + lsize xs

/-- Fuel needed to parse a printed member list. -/
def msize : List (List Char × Json) → Nat
  | [] => 1
  | (_, v) :: ms => jsize v + msize ms

end

/-! ### The parser: serde_json `from_str`

A fuelled recursive-descent parser over character lists.  Fuel only
bounds bracket nesting; one unit of input guarantees one unit of fuel, so
`jparse` runs it with `length + 1` and can never hit the bound on input it
would otherwise accept. -/

/-- JSON insignificant whitespace. -/
def isWs (c : Char) : Bool := c == ' ' || c == '\n' || c == '\t' || c == '\r'

/-- Drop leading insignificant whitespace. -/
def skipWs (cs : List Char) : List Char := cs.dropWhile isWs

/-- An ASCII decimal digit. -/
def isDig (c : Char) : Bool := 48 ≤ c.toNat && c.toNat ≤ 57

/-- Split off the leading run of decimal digits. -/
def spanDigits : List Char → List Char × List Char
  | [] => ([], [])
  | c :: cs =>
    if isDig c then
      let (ds, r) := spanDigits cs
      (c :: ds, r)
    else ([], c :: cs)

/-- The number a digit run denotes. -/
def digitsVal (ds : List Char) : Nat :=
  ds.foldl (fun a c => 10 * a + (c.toNat - 48)) 0

/-- The value of one hexadecimal digit character. -/
def hexDigVal (c : Char) : Option Nat :=
  if 48 ≤ c.toNat && c.toNat ≤ 57 then some (c.toNat - 48)
  else if 97 ≤ c.toNat && c.toNat ≤ 102 then some (c.toNat - 87)
  else if 65 ≤ c.toNat && c.toNat ≤ 70 then some (c.toNat - 55)
  else none

/-- The character a two-character escape stands for. -/
def unescCode (e : Char) : Option Char :=
  if e = '"' then some '"'
  else if e = '\\' then some '\\'
  else if e = '/' then some '/'
  else if e = 'b' then some '\x08'
  else if e = 'f' then some '\x0c'
  else if e = 'n' then some '\n'
  else if e = 'r' then some '\r'
  else if e = 't' then some '\t'
  else none

/-- Parse a string body after its opening quote: the decoded characters
and the input after the closing quote.  Raw control characters are
rejected, as serde rejects them. -/
def parseStrBody : List Char → Option (List Char × List Char)
  | [] => none
  | c :: cs =>
    if c = '"' then some ([], cs)
    else if c = '\\' then
      match cs with
      | 'u' :: h1 :: h2 :: h3 :: h4 :: cs2 =>
        match hexDigVal h1, hexDigVal h2, hexDigVal h3, hexDigVal h4 with
        | some a, some b, some x, some y =>
          match parseStrBody cs2 with
          | some (s, r) => some (Char.ofNat (((a * 16 + b) * 16 + x) * 16 + y) :: s, r)
          | none => none
        | _, _, _, _ => none
      | e :: cs2 =>
        match unescCode e with
        | some ch =>
          match parseStrBody cs2 with
          | some (s, r) => some (ch :: s, r)
          | none => none
        | none => none
      | [] => none
    else if c.toNat < 32 then none
    else
      match parseStrBody cs with
      | some (s, r) => some (c :: s, r)
      | none => none

mutual

/-- Parse one value, returning it with the unconsumed input. -/
def pVal : Nat → List Char → Option (Json × List Char)
  | 0, _ => none
  | fuel + 1, cs =>
    match skipWs cs with
    | [] => none
    | c :: cs1 =>
      if c = 'n' then
        match cs1 with
        | 'u' :: 'l' :: 'l' :: r => some (.null, r)
        | _ => none
      else if c = 't' then
        match cs1 with
        | 'r' :: 'u' :: 'e' :: r => some (.bool true, r)
        | _ => none
      else if c = 'f' then
        match cs1 with
        | 'a' :: 'l' :: 's' :: 'e' :: r => some (.bool false, r)
        | _ => none
      else if c = '"' then
        match parseStrBody cs1 with
        | some (s, r) => some (.str s, r)
        | none => none
      else if c = '[' then
        match pElems fuel (skipWs cs1) with
        | some (xs, r) => some (.arr xs, r)
        | none => none
      else if c = '{' then
        match pMembers fuel (skipWs cs1) with
        | some (ms, r) => some (.obj ms, r)
        | none => none
      else if c = '-' then
        match spanDigits cs1 with
        | ([], _) => none
        | (ds, r) => some (.num (-(digitsVal ds : Int)), r)
      else if isDig c then
        let (ds, r) := spanDigits (c :: cs1)
        some (.num ((digitsVal ds : Nat) : Int), r)
      else none

/-- Parse the items of an array after `[`, whitespace already skipped. -/
def pElems : Nat → List Char → Option (List Json × List Char)
  | 0, _ => none
  | fuel + 1, cs =>
    match cs with
    | [] => none
    | c :: cs1 =>
      if c = ']' then some ([], cs1)
      else
        match pVal fuel cs with
        | some (v, r) =>
          match pElemsTail fuel (skipWs r) with
          | some (vs, r2) => some (v :: vs, r2)
          | none => none
        | none => none

/-- After one array item: either `]` or `,` and another item. -/
def pElemsTail : Nat → List Char → Option (List Json × List Char)
  | 0, _ => none
  | fuel + 1, cs =>
    match cs with
    | [] => none
    | c :: cs1 =>
      if c = ']' then some ([], cs1)
      else if c = ',' then
        match pVal fuel cs1 with
        | some (v, r) =>
          match pElemsTail fuel (skipWs r) with
          | some (vs, r2) => some (v :: vs, r2)
          | none => none
        | none => none
      else none

/-- Parse the members of an object after `{`, whitespace already skipped. -/
def pMembers : Nat → List Char → Option (List (List Char × Json) × List Char)
  | 0, _ => none
  | fuel + 1, cs =>
    match cs with
    | [] => none
    | c :: cs1 =>
      if c = '}' then some ([], cs1)
      else if c = '"' then
        match parseStrBody cs1 with
        | some (k, r) =>
          match skipWs r with
          | ':' :: r2 =>
            match pVal fuel r2 with
            | some (v, r3) =>
              match pMembersTail fuel (skipWs r3) with
              | some (ms, r4) => some ((k, v) :: ms, r4)
              | none => none
            | none => none
          | _ => none
        | none => none
      else none

/-- After one object member: either `}` or `,` and another member. -/
def pMembersTail : Nat → List Char → Option (List (List Char × Json) × List Char)
  | 0, _ => none
  | fuel + 1, cs =>
    match cs with
    | [] => none
    | c :: cs1 =>
      if c = '}' then some ([], cs1)
      else if c = ',' then
        match skipWs cs1 with
        | c2 :: cs2 =>
          if c2 = '"' then
            match parseStrBody cs2 with
            | some (k, r) =>
              match skipWs r with
              | ':' :: r2 =>
                match pVal fuel r2 with
                | some (v, r3) =>
                  match pMembersTail fuel (skipWs r3) with
                  | some (ms, r4) => some ((k, v) :: ms, r4)
                  | none => none
                | none => none
              | _ => none
            | none => none
          else none
        | [] => none
      else none

end

/-- serde_json `from_str`: parse a complete document, rejecting trailing
input. -/
def jparse (s : String) : Option Json :=
  match pVal (s.data.length + 1) s.data with
  | some (v, r) => if skipWs r = [] then some v else none
  | none => none

/-! ### The operations of src/src-tauri/src/lib.rs

Every operation threads the filesystem state and returns it together with
the Rust `Result`, so the state after a failed call is also observable. -/

/-- Debug formatting of a `PathBuf`, as `format!` with `{:?}` prints it. -/
def pathRepr (p : Path) : String := "\"" ++ String.intercalate "/" p ++ "\""

/-- The `join("src").join("data").join("questions.json")` suffix applied to
a base directory. -/
def dataFile (d : Path) : Path := d ++ ["src", "data", "questions.json"]

/-- The production branch of `get_questions_path`: `questions.json` inside
the per-user app-data directory, which is created when missing. -/
def appDataFallback (env : Env) (fs : FS) : FS × Except String Path :=
  match env.app_data_dir with
  | .error e => (fs, .error ("Failed to get app data dir: " ++ e))
  | .ok app_data_dir =>
    if fs.dirExists app_data_dir then
      (fs, .ok (app_data_dir ++ ["questions.json"]))
    else
      match fs.createDirAll app_data_dir with
      | (fs2, .ok _) => (fs2, .ok (app_data_dir ++ ["questions.json"]))
      | (fs2, .error e) => (fs2, .error ("Failed to create app data dir: " ++ e))

/-- Rust `get_questions_path`: the development-tree file under the current
directory, else the same one directory up, else `appDataFallback`. -/
def get_questions_path (env : Env) (fs : FS) : FS × Except String Path :=
  match env.current_dir with
  | none => (fs, .error "Failed to get current dir")
  | some current_dir =>
    if fs.fileExists (dataFile current_dir) then (fs, .ok (dataFile current_dir))
    else
      match (Path.parent current_dir).map dataFile with
      | some path =>
        if fs.fileExists path then (fs, .ok path) else appDataFallback env fs
      | none => appDataFallback env fs

/-- The verbatim fallback document `init_questions` writes (the raw-string
literal of the source, with its newlines and indentation). -/
def empty_questions : String :=
  "\x7b\n        \"questions\": [],\n        \"version\": \"1.0.0\",\n        \"lastUpdated\": \"\"\n    \x7d"

/-- Rust `init_questions`: no-op when the resolved file exists; otherwise
copy the bundled resource when present, else write `empty_questions`. -/
def init_questions (env : Env) (fs : FS) : FS × Except String Unit :=
  match get_questions_path env fs with
  | (fs1, .error e) => (fs1, .error e)
  | (fs1, .ok questions_path) =>
    if fs1.fileExists questions_path then (fs1, .ok ())
    else
      match env.resource_dir with
      | .error e => (fs1, .error ("Failed to get resource dir: " ++ e))
      | .ok resource_dir =>
        let resource_path := resource_dir ++ ["data", "questions.json"]
        if fs1.fileExists resource_path then
          match fs1.copyFile resource_path questions_path with
          | (fs2, .ok _) => (fs2, .ok ())
          | (fs2, .error e) =>
            (fs2, .error ("Failed to copy questions from resources: " ++ e))
        else
          match fs1.writeFile questions_path empty_questions with
          | (fs2, .ok _) => (fs2, .ok ())
          | (fs2, .error e) =>
            (fs2, .error ("Failed to create empty questions file: " ++ e))

/-- Rust `greet`: pure string formatting. -/
def greet (name : String) : String :=
  "Hello, " ++ name ++ "! You've been greeted from Rust!"

/-- Rust `save_questions`: resolve, parse-validate, pretty-print, write. -/
def save_questions (env : Env) (fs : FS) (questions_json : String) :
    FS × Except String String :=
  match get_questions_path env fs with
  | (fs1, .error e) => (fs1, .error e)
  | (fs1, .ok questions_path) =>
    match jparse questions_json with
    | none => (fs1, .error "Invalid JSON")
    | some parsed =>
      let pretty_json := toStringPretty parsed
      match fs1.writeFile questions_path pretty_json with
      | (fs2, .ok _) =>
        (fs2, .ok ("Questions saved successfully to " ++ pathRepr questions_path))
      | (fs2, .error e) => (fs2, .error ("Failed to write file: " ++ e))

/-- Rust `read_questions`: ensure the file exists, re-resolve, read. -/
def read_questions (env : Env) (fs : FS) : FS × Except String String :=
  match init_questions env fs with
  | (fs1, .error e) => (fs1, .error e)
  | (fs1, .ok _) =>
    match get_questions_path env fs1 with
    | (fs2, .error e) => (fs2, .error e)
    | (fs2, .ok questions_path) =>
      match lookupFile fs2.files questions_path with
      | some contents => (fs2, .ok contents)
      | none => (fs2, .error "Failed to read file")

/-- A command of the dispatch surface registered in `run()`. -/
inductive Cmd where
  | greetCmd (name : String)
  | saveCmd (questions_json : String)
  | readCmd
  | initCmd

/-- One command invocation against the filesystem state. -/
def runCmd (env : Env) (fs : FS) : Cmd → FS × Except String String
  | .greetCmd name => (fs, .ok (greet name))
  | .saveCmd t => save_questions env fs t
  | .readCmd => read_questions env fs
  | .initCmd =>
    match init_questions env fs with
    | (fs1, .ok _) => (fs1, .ok "")
    | (fs1, .error e) => (fs1, .error e)

/-- The parsed form of `empty_questions` (and of the spec's minimal
document). -/
def defaultDoc : Json :=
  .obj [(cl "questions", .arr []), (cl "version", .str (cl "1.0.0")),
        (cl "lastUpdated", .str [])]

/-- Whether a Rust `Result` is `Ok`. -/
def okB : Except String α → Bool
  | .ok _ => true
  | .error _ => false

/-- A remainder the number branch cannot extend: empty, or starting with a
non-digit.  Every delimiter the printer emits after a value qualifies. -/
def digDelim : List Char → Bool
  | [] => true
  | c :: _ => !(isDig c)

/-! ### Concrete fixtures for witnesses and counterexamples -/

/-- A host environment for concrete checks: working directory `w`, app-data
directory `ad`, resource directory `res`. -/
def envW : Env := ⟨some ["w"], .ok ["ad"], .ok ["res"]⟩

/-- A bare production-like filesystem: the app-data directory exists, no
files at all. -/
def fsW : FS := ⟨[], [["ad"]], [], [], []⟩

/-- A development-tree filesystem: the dev file exists with known
contents. -/
def fsD : FS := ⟨[(["w", "src", "data", "questions.json"], "OLDDOC")], [], [], [], []⟩

/-- A filesystem with a bundled resource and no document. -/
def fsR : FS := ⟨[(["res", "data", "questions.json"], "BUNDLED")], [["ad"]], [], [], []⟩

/-- A filesystem where the bundled resource exists but copying it fails
(say, the source is unreadable), while writing the destination would
succeed. -/
def fsX : FS := ⟨[(["res", "data", "questions.json"], "BUNDLED")], [["ad"]], [],
  [(["res", "data", "questions.json"], ["ad", "questions.json"])], []⟩

/-! ### Round trip, stage 1: characters, digits, whitespace -/

theorem isDig_iff {c : Char} : isDig c = true ↔ 48 ≤ c.toNat ∧ c.toNat ≤ 57 := by
  simp [isDig]

theorem dig_ne {c : Char} (h : isDig c = true) {d : Char} (hd : isDig d = false) :
    c ≠ d := fun he => by
  rw [he, hd] at h
  cases h

theorem decChar_toNat {d : Nat} (h : d < 10) : (decChar d).toNat = 48 + d := by
  interval_cases d <;> decide

theorem isDig_decChar {d : Nat} (h : d < 10) : isDig (decChar d) = true := by
  interval_cases d <;> decide

theorem ppNat_digits (n : Nat) : ∀ c ∈ ppNat n, isDig c = true := by
  intro c hc
  unfold ppNat at hc
  split at hc
  · simp at hc
    subst hc
    decide
  · simp only [List.mem_map, List.mem_reverse] at hc
    obtain ⟨d, hd, rfl⟩ := hc
    exact isDig_decChar (Nat.digits_lt_base (by norm_num) hd)

theorem ppNat_ne_nil (n : Nat) : ppNat n ≠ [] := by
  unfold ppNat
  split
  · simp
  · simp [Nat.digits_ne_nil_iff_ne_zero, *]

theorem foldr_ofDigits (L : List Nat) :
    L.foldr (fun d a => 10 * a + d) 0 = Nat.ofDigits 10 L := by
  induction L with
  | nil => simp [Nat.ofDigits]
  | cons d L ih =>
    simp [Nat.ofDigits_cons, ih]
    ring

theorem digitsVal_ppNat (n : Nat) : digitsVal (ppNat n) = n := by
  unfold ppNat
  split
  · subst ‹n = 0›
    decide
  · unfold digitsVal
    rw [List.foldl_map, List.foldl_reverse]
    have hcong : (Nat.digits 10 n).foldr
        (fun d a => (fun a c => 10 * a + (Char.toNat c - 48)) a (decChar d)) 0
        = (Nat.digits 10 n).foldr (fun d a => 10 * a + d) 0 := by
      apply List.foldr_ext
      intro d hd a
      show 10 * a + ((decChar d).toNat - 48) = 10 * a + d
      rw [decChar_toNat (Nat.digits_lt_base (by norm_num) hd)]
      omega
    rw [hcong, foldr_ofDigits, Nat.ofDigits_digits]

theorem spanDigits_emit (ds : List Char) (rest : List Char)
    (hds : ∀ c ∈ ds, isDig c = true) (hrest : digDelim rest = true) :
    spanDigits (ds ++ rest) = (ds, rest) := by
  induction ds with
  | nil =>
    cases rest with
    | nil => rfl
    | cons c t =>
      simp only [digDelim, Bool.not_eq_true'] at hrest
      simp [spanDigits, hrest]
  | cons c t ih =>
    have hc : isDig c = true := hds c (by simp)
    have ht := ih (fun x hx => hds x (by simp [hx]))
    simp [spanDigits, hc, ht]

theorem isWs_false_of_dig {c : Char} (h : isDig c = true) : isWs c = false := by
  have e1 : c ≠ ' ' := dig_ne h (by decide)
  have e2 : c ≠ '\n' := dig_ne h (by decide)
  have e3 : c ≠ '\t' := dig_ne h (by decide)
  have e4 : c ≠ '\r' := dig_ne h (by decide)
  simp [isWs, e1, e2, e3, e4]

theorem skipWs_not_ws {c : Char} (l : List Char) (h : isWs c = false) :
    skipWs (c :: l) = c :: l := by
  simp [skipWs, List.dropWhile_cons, h]

theorem skipWs_ws {c : Char} (l : List Char) (h : isWs c = true) :
    skipWs (c :: l) = skipWs l := by
  simp [skipWs, List.dropWhile_cons, h]

theorem skipWs_pad (n : Nat) (l : List Char) : skipWs (pad n ++ l) = skipWs l := by
  induction n with
  | zero => rfl
  | succ k ih =>
    have : pad (k + 1) = ' ' :: pad k := by
      simp [pad, List.replicate_succ]
    rw [this, List.cons_append, skipWs_ws _ (by decide), ih]

theorem skipWs_nl_pad (n : Nat) (l : List Char) :
    skipWs ('\n' :: (pad n ++ l)) = skipWs l := by
  rw [skipWs_ws _ (by decide), skipWs_pad]

/-! ### Round trip, stage 2: strings -/

theorem hexDigVal_hexChar {d : Nat} (h : d < 16) : hexDigVal (hexChar d) = some d := by
  interval_cases d <;> decide

theorem parseStrBody_escChar (c : Char) (rest : List Char) :
    parseStrBody (escChar c ++ rest) =
      match parseStrBody rest with
      | some (s, r) => some (c :: s, r)
      | none => none := by
  by_cases h1 : c = '"'
  · subst h1
    rw [escChar, if_pos rfl, List.cons_append, List.cons_append, List.nil_append,
      parseStrBody.eq_def]
    simp [unescCode]
  by_cases h2 : c = '\\'
  · subst h2
    rw [escChar, if_neg (by decide), if_pos rfl, List.cons_append, List.cons_append,
      List.nil_append, parseStrBody.eq_def]
    simp [unescCode]
  by_cases h3 : c = '\x08'
  · subst h3
    rw [escChar, if_neg (by decide), if_neg (by decide), if_pos rfl, List.cons_append,
      List.cons_append, List.nil_append, parseStrBody.eq_def]
    simp [unescCode]
  by_cases h4 : c = '\t'
  · subst h4
    rw [escChar, if_neg (by decide), if_neg (by decide), if_neg (by decide), if_pos rfl,
      List.cons_append, List.cons_append, List.nil_append, parseStrBody.eq_def]
    simp [unescCode]
  by_cases h5 : c = '\n'
  · subst h5
    rw [escChar, if_neg (by decide), if_neg (by decide), if_neg (by decide),
      if_neg (by decide), if_pos rfl, List.cons_append, List.cons_append,
      List.nil_append, parseStrBody.eq_def]
    simp [unescCode]
  by_cases h6 : c = '\x0c'
  · subst h6
    rw [escChar, if_neg (by decide), if_neg (by decide), if_neg (by decide),
      if_neg (by decide), if_neg (by decide), if_pos rfl, List.cons_append,
      List.cons_append, List.nil_append, parseStrBody.eq_def]
    simp [unescCode]
  by_cases h7 : c = '\r'
  · subst h7
    rw [escChar, if_neg (by decide), if_neg (by decide), if_neg (by decide),
      if_neg (by decide), if_neg (by decide), if_neg (by decide), if_pos rfl,
      List.cons_append, List.cons_append, List.nil_append, parseStrBody.eq_def]
    simp [unescCode]
  by_cases h8 : c.toNat < 32
  · have hdiv : c.toNat / 16 < 16 := by omega
    have hmod : c.toNat % 16 < 16 := by omega
    have harith : ((0 * 16 + 0) * 16 + c.toNat / 16) * 16 + c.toNat % 16 = c.toNat := by
      omega
    rw [escChar, if_neg h1, if_neg h2, if_neg h3, if_neg h4, if_neg h5, if_neg h6,
      if_neg h7, if_pos h8]
    simp only [List.cons_append, List.nil_append]
    rw [parseStrBody.eq_def]
    simp only [if_neg (by decide : ¬('\\' : Char) = '"'), if_pos rfl]
    rw [show hexDigVal '0' = some 0 from rfl, hexDigVal_hexChar hdiv,
      hexDigVal_hexChar hmod]
    simp only [harith, Char.ofNat_toNat, if_true]
  · rw [escChar, if_neg h1, if_neg h2, if_neg h3, if_neg h4, if_neg h5, if_neg h6,
      if_neg h7, if_neg h8]
    simp only [List.cons_append, List.nil_append]
    rw [parseStrBody.eq_def]
    simp [h1, h2, h8]

theorem parseStrBody_escStr (s rest : List Char) :
    parseStrBody (escStr s ++ '"' :: rest) = some (s, rest) := by
  induction s with
  | nil =>
    rw [escStr, List.nil_append, parseStrBody.eq_def]
    simp
  | cons c t ih =>
    rw [escStr, List.append_assoc, parseStrBody_escChar, ih]

/-! ### Round trip, stage 3: scalar values -/

theorem ppNat_head (n : Nat) : ∃ c t, ppNat n = c :: t ∧ isDig c = true := by
  match h : ppNat n with
  | [] => exact absurd h (ppNat_ne_nil n)
  | c :: t =>
    refine ⟨c, t, rfl, ?_⟩
    exact ppNat_digits n c (h ▸ List.mem_cons_self c t)

theorem pVal_step (fuel : Nat) (cs : List Char) :
    pVal (fuel + 1) cs =
      match skipWs cs with
      | [] => none
      | c :: cs1 =>
        if c = 'n' then
          match cs1 with
          | 'u' :: 'l' :: 'l' :: r => some (.null, r)
          | _ => none
        else if c = 't' then
          match cs1 with
          | 'r' :: 'u' :: 'e' :: r => some (.bool true, r)
          | _ => none
        else if c = 'f' then
          match cs1 with
          | 'a' :: 'l' :: 's' :: 'e' :: r => some (.bool false, r)
          | _ => none
        else if c = '"' then
          match parseStrBody cs1 with
          | some (s, r) => some (.str s, r)
          | none => none
        else if c = '[' then
          match pElems fuel (skipWs cs1) with
          | some (xs, r) => some (.arr xs, r)
          | none => none
        else if c = '{' then
          match pMembers fuel (skipWs cs1) with
          | some (ms, r) => some (.obj ms, r)
          | none => none
        else if c = '-' then
          match spanDigits cs1 with
          | ([], _) => none
          | (ds, r) => some (.num (-(digitsVal ds : Int)), r)
        else if isDig c then
          let (ds, r) := spanDigits (c :: cs1)
          some (.num ((digitsVal ds : Nat) : Int), r)
        else none := rfl

theorem pElems_step (fuel : Nat) (cs : List Char) :
    pElems (fuel + 1) cs =
      match cs with
      | [] => none
      | c :: _ =>
        if c = ']' then some ([], cs.tail)
        else
          match pVal fuel cs with
          | some (v, r) =>
            match pElemsTail fuel (skipWs r) with
            | some (vs, r2) => some (v :: vs, r2)
            | none => none
          | none => none := by
  cases cs <;> rfl

theorem pElemsTail_step (fuel : Nat) (cs : List Char) :
    pElemsTail (fuel + 1) cs =
      match cs with
      | [] => none
      | c :: cs1 =>
        if c = ']' then some ([], cs1)
        else if c = ',' then
          match pVal fuel cs1 with
          | some (v, r) =>
            match pElemsTail fuel (skipWs r) with
            | some (vs, r2) => some (v :: vs, r2)
            | none => none
          | none => none
        else none := rfl

theorem pMembers_step (fuel : Nat) (cs : List Char) :
    pMembers (fuel + 1) cs =
      match cs with
      | [] => none
      | c :: cs1 =>
        if c = '}' then some ([], cs1)
        else if c = '"' then
          match parseStrBody cs1 with
          | some (k, r) =>
            match skipWs r with
            | ':' :: r2 =>
              match pVal fuel r2 with
              | some (v, r3) =>
                match pMembersTail fuel (skipWs r3) with
                | some (ms, r4) => some ((k, v) :: ms, r4)
                | none => none
              | none => none
            | _ => none
          | none => none
        else none := rfl

theorem pMembersTail_step (fuel : Nat) (cs : List Char) :
    pMembersTail (fuel + 1) cs =
      match cs with
      | [] => none
      | c :: cs1 =>
        if c = '}' then some ([], cs1)
        else if c = ',' then
          match skipWs cs1 with
          | c2 :: cs2 =>
            if c2 = '"' then
              match parseStrBody cs2 with
              | some (k, r) =>
                match skipWs r with
                | ':' :: r2 =>
                  match pVal fuel r2 with
                  | some (v, r3) =>
                    match pMembersTail fuel (skipWs r3) with
                    | some (ms, r4) => some ((k, v) :: ms, r4)
                    | none => none
                  | none => none
                | _ => none
              | none => none
            else none
          | [] => none
        else none := rfl

theorem pVal_null (fuel : Nat) (rest : List Char) :
    pVal (fuel + 1) (['n', 'u', 'l', 'l'] ++ rest) = some (.null, rest) := by
  rw [pVal_step]
  simp [skipWs_not_ws _ (by decide : isWs 'n' = false)]

theorem pVal_bool (b : Bool) (fuel : Nat) (rest : List Char) :
    pVal (fuel + 1) (ppValue 0 (.bool b) ++ rest) = some (.bool b, rest) := by
  cases b <;>
    · rw [pVal_step]
      simp [ppValue, skipWs_not_ws _ (by decide : isWs 't' = false),
        skipWs_not_ws _ (by decide : isWs 'f' = false)]

theorem pVal_str (s : List Char) (fuel : Nat) (rest : List Char) :
    pVal (fuel + 1) (ppStr s ++ rest) = some (.str s, rest) := by
  rw [ppStr, List.cons_append, List.cons_append, pVal_step]
  rw [skipWs_not_ws _ (by decide : isWs '"' = false)]
  simp only [if_neg (by decide : ¬('"' : Char) = 'n'),
    if_neg (by decide : ¬('"' : Char) = 't'),
    if_neg (by decide : ¬('"' : Char) = 'f'), if_pos rfl]
  rw [List.append_assoc, List.singleton_append, parseStrBody_escStr]
  simp

theorem pVal_num (n : Int) (fuel : Nat) (rest : List Char)
    (hrest : digDelim rest = true) :
    pVal (fuel + 1) (ppInt n ++ rest) = some (.num n, rest) := by
  by_cases hn : n < 0
  · rw [ppInt, if_pos hn, List.cons_append, pVal_step]
    rw [skipWs_not_ws _ (by decide : isWs '-' = false)]
    simp only [if_neg (by decide : ¬('-' : Char) = 'n'),
      if_neg (by decide : ¬('-' : Char) = 't'),
      if_neg (by decide : ¬('-' : Char) = 'f'),
      if_neg (by decide : ¬('-' : Char) = '"'),
      if_neg (by decide : ¬('-' : Char) = '['),
      if_neg (by decide : ¬('-' : Char) = '{'), if_pos rfl]
    obtain ⟨c, t, hct, hc⟩ := ppNat_head n.natAbs
    rw [spanDigits_emit _ _ (ppNat_digits n.natAbs) hrest, hct]
    have hval : digitsVal (c :: t) = n.natAbs := hct ▸ digitsVal_ppNat n.natAbs
    simp only [hval]
    have : -((n.natAbs : Nat) : Int) = n := by omega
    rw [this]
    simp
  · obtain ⟨c, t, hct, hc⟩ := ppNat_head n.toNat
    rw [ppInt, if_neg hn, hct, List.cons_append, pVal_step]
    rw [skipWs_not_ws _ (isWs_false_of_dig hc)]
    simp only [if_neg (dig_ne hc (by decide : isDig 'n' = false)),
      if_neg (dig_ne hc (by decide : isDig 't' = false)),
      if_neg (dig_ne hc (by decide : isDig 'f' = false)),
      if_neg (dig_ne hc (by decide : isDig '"' = false)),
      if_neg (dig_ne hc (by decide : isDig '[' = false)),
      if_neg (dig_ne hc (by decide : isDig '{' = false)),
      if_neg (dig_ne hc (by decide : isDig '-' = false)), hc, if_pos rfl]
    have hspan : spanDigits (c :: t ++ rest) = (c :: t, rest) :=
      hct ▸ spanDigits_emit _ _ (ppNat_digits n.toNat) hrest
    simp only [← List.cons_append, hspan]
    have hval : digitsVal (c :: t) = n.toNat := hct ▸ digitsVal_ppNat n.toNat
    simp only [hval]
    have : ((n.toNat : Nat) : Int) = n := by omega
    rw [this]
    simp

/-! ### Round trip, stage 4: the mutual induction -/

theorem jsize_pos (v : Json) : 1 ≤ jsize v := by
  cases v <;> simp [jsize]

theorem lsize_pos (xs : List Json) : 1 ≤ lsize xs := by
  cases xs with
  | nil => simp [lsize]
  | cons x t =>
    have := jsize_pos x
    simp [lsize]
    omega

theorem msize_pos (ms : List (List Char × Json)) : 1 ≤ msize ms := by
  cases ms with
  | nil => simp [msize]
  | cons m t =>
    obtain ⟨k, v⟩ := m
    have := jsize_pos v
    simp [msize]
    omega

theorem ppValue_head (ind : Nat) (v : Json) :
    ∃ c t, ppValue ind v = c :: t ∧ isWs c = false ∧ c ≠ ']' := by
  cases v with
  | null => exact ⟨'n', ['u', 'l', 'l'], by simp [ppValue], by decide, by decide⟩
  | bool b =>
    cases b with
    | true => exact ⟨'t', ['r', 'u', 'e'], by simp [ppValue], by decide, by decide⟩
    | false => exact ⟨'f', ['a', 'l', 's', 'e'], by simp [ppValue], by decide, by decide⟩
  | str s =>
    exact ⟨'"', escStr s ++ ['"'], by simp [ppValue, ppStr], by decide, by decide⟩
  | num n =>
    by_cases hn : n < 0
    · exact ⟨'-', ppNat n.natAbs, by simp [ppValue, ppInt, hn], by decide, by decide⟩
    · obtain ⟨c, t, hct, hc⟩ := ppNat_head n.toNat
      exact ⟨c, t, by simp [ppValue, ppInt, hn, hct],
        isWs_false_of_dig hc, dig_ne hc (by decide)⟩
  | arr xs =>
    cases xs with
    | nil => exact ⟨'[', [']'], by simp [ppValue], by decide, by decide⟩
    | cons x t =>
      exact ⟨'[', '\n' :: (pad (ind + 2) ++ (ppValue (ind + 2) x
        ++ (ppElemsTail (ind + 2) t ++ '\n' :: (pad ind ++ [']'])))),
        by simp [ppValue], by decide, by decide⟩
  | obj ms =>
    cases ms with
    | nil => exact ⟨'{', ['}'], by simp [ppValue], by decide, by decide⟩
    | cons m t =>
      obtain ⟨k, w⟩ := m
      exact ⟨'{', '\n' :: (pad (ind + 2) ++ (ppStr k ++ ':' :: ' ' :: (ppValue (ind + 2) w
        ++ (ppMembersTail (ind + 2) t ++ '\n' :: (pad ind ++ ['}']))))),
        by simp [ppValue], by decide, by decide⟩

theorem digDelim_elems (indE indC : Nat) (xs : List Json) (rest : List Char) :
    digDelim (ppElemsTail indE xs ++ ('\n' :: (pad indC ++ (']' :: rest)))) = true := by
  cases xs with
  | nil => simp [ppElemsTail, digDelim, isDig]
  | cons x t => simp [ppElemsTail, digDelim, isDig]

theorem digDelim_members (indE indC : Nat) (ms : List (List Char × Json))
    (rest : List Char) :
    digDelim (ppMembersTail indE ms ++ ('\n' :: (pad indC ++ ('}' :: rest)))) = true := by
  cases ms with
  | nil => simp [ppMembersTail, digDelim, isDig]
  | cons m t =>
    obtain ⟨k, v⟩ := m
    simp [ppMembersTail, digDelim, isDig]

theorem pVal_ws (fuel n : Nat) (l : List Char) :
    pVal fuel ('\n' :: (pad n ++ l)) = pVal fuel l := by
  cases fuel with
  | zero => rfl
  | succ f => rw [pVal_step, pVal_step, skipWs_nl_pad]

theorem pVal_sp (fuel : Nat) (l : List Char) :
    pVal fuel (' ' :: l) = pVal fuel l := by
  cases fuel with
  | zero => rfl
  | succ f => rw [pVal_step, pVal_step, skipWs_ws _ (by decide)]

mutual

theorem rtVal : ∀ (v : Json) (ind fuel : Nat) (rest : List Char),
    jsize v ≤ fuel → digDelim rest = true →
    pVal fuel (ppValue ind v ++ rest) = some (v, rest)
  | .null, ind, fuel, rest, hf, _ => by
    cases fuel with
    | zero => simp [jsize] at hf
    | succ f =>
      rw [show ppValue ind .null = ['n', 'u', 'l', 'l'] from by simp [ppValue]]
      exact pVal_null f rest
  | .bool b, ind, fuel, rest, hf, _ => by
    cases fuel with
    | zero => simp [jsize] at hf
    | succ f =>
      rw [show ppValue ind (.bool b) = ppValue 0 (.bool b) from by cases b <;> simp [ppValue]]
      exact pVal_bool b f rest
  | .num n, ind, fuel, rest, hf, hr => by
    cases fuel with
    | zero => simp [jsize] at hf
    | succ f =>
      rw [show ppValue ind (.num n) = ppInt n from by simp [ppValue]]
      exact pVal_num n f rest hr
  | .str s, ind, fuel, rest, hf, _ => by
    cases fuel with
    | zero => simp [jsize] at hf
    | succ f =>
      rw [show ppValue ind (.str s) = ppStr s from by simp [ppValue]]
      exact pVal_str s f rest
  | .arr [], ind, fuel, rest, hf, _ => by
    cases fuel with
    | zero => simp [jsize] at hf
    | succ f =>
      cases f with
      | zero => simp [jsize, lsize] at hf
      | succ f2 =>
        rw [show ppValue ind (.arr []) ++ rest = '[' :: (']' :: rest) from by simp [ppValue],
          pVal_step, skipWs_not_ws _ (by decide : isWs '[' = false)]
        simp only [if_neg (by decide : ¬('[' : Char) = 'n'),
          if_neg (by decide : ¬('[' : Char) = 't'),
          if_neg (by decide : ¬('[' : Char) = 'f'),
          if_neg (by decide : ¬('[' : Char) = '"'), if_pos rfl]
        rw [skipWs_not_ws _ (by decide : isWs ']' = false), pElems_step]
        simp
  | .arr (x :: xs), ind, fuel, rest, hf, _ => by
    cases fuel with
    | zero => simp [jsize] at hf
    | succ f =>
      have hjx := jsize_pos x
      have hlx := lsize_pos xs
      have hf' : jsize x + lsize xs ≤ f := by
        simp [jsize, lsize] at hf
        omega
      obtain ⟨c, t, hct, hcw, hcb⟩ := ppValue_head (ind + 2) x
      have harg : ppValue ind (.arr (x :: xs)) ++ rest
          = '[' :: ('\n' :: (pad (ind + 2) ++ (ppValue (ind + 2) x
            ++ (ppElemsTail (ind + 2) xs ++ ('\n' :: (pad ind ++ (']' :: rest))))))) := by
        simp [ppValue]
      rw [harg, pVal_step, skipWs_not_ws _ (by decide : isWs '[' = false)]
      simp only [if_neg (by decide : ¬('[' : Char) = 'n'),
        if_neg (by decide : ¬('[' : Char) = 't'),
        if_neg (by decide : ¬('[' : Char) = 'f'),
        if_neg (by decide : ¬('[' : Char) = '"'), if_pos rfl]
      rw [skipWs_nl_pad, hct, List.cons_append,
        skipWs_not_ws _ hcw, ← List.cons_append, ← hct]
      cases f with
      | zero => omega
      | succ f2 =>
        rw [pElems_step, hct, List.cons_append]
        simp only [if_neg hcb]
        rw [← List.cons_append, ← hct,
          rtVal x (ind + 2) f2 _ (by omega) (digDelim_elems _ _ _ _)]
        simp [rtElemsTail xs (ind + 2) ind f2 rest (by omega)]
  | .obj [], ind, fuel, rest, hf, _ => by
    cases fuel with
    | zero => simp [jsize] at hf
    | succ f =>
      cases f with
      | zero => simp [jsize, msize] at hf
      | succ f2 =>
        rw [show ppValue ind (.obj []) ++ rest = '{' :: ('}' :: rest) from by simp [ppValue],
          pVal_step, skipWs_not_ws _ (by decide : isWs '{' = false)]
        simp only [if_neg (by decide : ¬('{' : Char) = 'n'),
          if_neg (by decide : ¬('{' : Char) = 't'),
          if_neg (by decide : ¬('{' : Char) = 'f'),
          if_neg (by decide : ¬('{' : Char) = '"'),
          if_neg (by decide : ¬('{' : Char) = '['), if_pos rfl]
        rw [skipWs_not_ws _ (by decide : isWs '}' = false), pMembers_step]
        simp
  | .obj ((k, v) :: ms), ind, fuel, rest, hf, _ => by
    cases fuel with
    | zero => simp [jsize] at hf
    | succ f =>
      have hjv := jsize_pos v
      have hlm := msize_pos ms
      have hf' : jsize v + msize ms ≤ f := by
        simp [jsize, msize] at hf
        omega
      have harg : ppValue ind (.obj ((k, v) :: ms)) ++ rest
          = '{' :: ('\n' :: (pad (ind + 2) ++ ('"' :: (escStr k ++ ('"' :: (':' :: (' ' ::
            (ppValue (ind + 2) v ++ (ppMembersTail (ind + 2) ms
              ++ ('\n' :: (pad ind ++ ('}' :: rest)))))))))))) := by
        simp [ppValue, ppStr]
      rw [harg, pVal_step, skipWs_not_ws _ (by decide : isWs '{' = false)]
      simp only [if_neg (by decide : ¬('{' : Char) = 'n'),
        if_neg (by decide : ¬('{' : Char) = 't'),
        if_neg (by decide : ¬('{' : Char) = 'f'),
        if_neg (by decide : ¬('{' : Char) = '"'),
        if_neg (by decide : ¬('{' : Char) = '['), if_pos rfl]
      rw [skipWs_nl_pad, skipWs_not_ws _ (by decide : isWs '"' = false)]
      cases f with
      | zero => omega
      | succ f2 =>
        rw [pMembers_step]
        simp only [if_neg (by decide : ¬('"' : Char) = '}'), if_pos rfl]
        rw [parseStrBody_escStr]
        simp [skipWs_not_ws _ (by decide : isWs ':' = false), pVal_sp,
          rtVal v (ind + 2) f2 _ (by omega) (digDelim_members _ _ _ _),
          rtMembersTail ms (ind + 2) ind f2 rest (by omega)]

theorem rtElemsTail : ∀ (xs : List Json) (indE indC fuel : Nat) (rest : List Char),
    lsize xs ≤ fuel →
    pElemsTail fuel (skipWs (ppElemsTail indE xs ++ ('\n' :: (pad indC ++ (']' :: rest)))))
      = some (xs, rest)
  | [], indE, indC, fuel, rest, hf => by
    cases fuel with
    | zero => simp [lsize] at hf
    | succ f =>
      rw [show ppElemsTail indE ([] : List Json) ++ ('\n' :: (pad indC ++ (']' :: rest)))
          = '\n' :: (pad indC ++ (']' :: rest)) from by simp [ppElemsTail]]
      rw [skipWs_nl_pad, skipWs_not_ws _ (by decide : isWs ']' = false), pElemsTail_step]
      simp
  | y :: ys, indE, indC, fuel, rest, hf => by
    cases fuel with
    | zero =>
      have := jsize_pos y
      simp [lsize] at hf
      omega
    | succ f =>
      have hjy := jsize_pos y
      have hly := lsize_pos ys
      have hf' : jsize y + lsize ys ≤ f + 1 := by simpa [lsize] using hf
      have harg : ppElemsTail indE (y :: ys) ++ ('\n' :: (pad indC ++ (']' :: rest)))
          = ',' :: ('\n' :: (pad indE ++ (ppValue indE y ++ (ppElemsTail indE ys
              ++ ('\n' :: (pad indC ++ (']' :: rest))))))) := by
        simp [ppElemsTail]
      rw [harg, skipWs_not_ws _ (by decide : isWs ',' = false), pElemsTail_step]
      simp only [if_neg (by decide : ¬(',' : Char) = ']'), if_pos rfl]
      rw [pVal_ws, rtVal y indE f _ (by omega) (digDelim_elems _ _ _ _)]
      simp [rtElemsTail ys indE indC f rest (by omega)]

theorem rtMembersTail : ∀ (ms : List (List Char × Json)) (indE indC fuel : Nat)
    (rest : List Char),
    msize ms ≤ fuel →
    pMembersTail fuel (skipWs (ppMembersTail indE ms ++ ('\n' :: (pad indC ++ ('}' :: rest)))))
      = some (ms, rest)
  | [], indE, indC, fuel, rest, hf => by
    cases fuel with
    | zero => simp [msize] at hf
    | succ f =>
      rw [show ppMembersTail indE ([] : List (List Char × Json))
            ++ ('\n' :: (pad indC ++ ('}' :: rest)))
          = '\n' :: (pad indC ++ ('}' :: rest)) from by simp [ppMembersTail]]
      rw [skipWs_nl_pad, skipWs_not_ws _ (by decide : isWs '}' = false), pMembersTail_step]
      simp
  | (k, v) :: ms, indE, indC, fuel, rest, hf => by
    cases fuel with
    | zero =>
      have := jsize_pos v
      simp [msize] at hf
      omega
    | succ f =>
      have hjv := jsize_pos v
      have hlm := msize_pos ms
      have hf' : jsize v + msize ms ≤ f + 1 := by simpa [msize] using hf
      have harg : ppMembersTail indE ((k, v) :: ms) ++ ('\n' :: (pad indC ++ ('}' :: rest)))
          = ',' :: ('\n' :: (pad indE ++ ('"' :: (escStr k ++ ('"' :: (':' :: (' ' ::
              (ppValue indE v ++ (ppMembersTail indE ms
                ++ ('\n' :: (pad indC ++ ('}' :: rest)))))))))))) := by
        simp [ppMembersTail, ppStr]
      rw [harg, skipWs_not_ws _ (by decide : isWs ',' = false), pMembersTail_step]
      simp only [if_neg (by decide : ¬(',' : Char) = '}'), if_pos rfl]
      rw [skipWs_nl_pad, skipWs_not_ws _ (by decide : isWs '"' = false)]
      simp [parseStrBody_escStr, skipWs_not_ws _ (by decide : isWs ':' = false), pVal_sp,
        rtVal v indE f _ (by omega) (digDelim_members _ _ _ _),
        rtMembersTail ms indE indC f rest (by omega)]

end

/-! ### Round trip, stage 5: fuel is always sufficient at top level -/

theorem ppInt_ne_nil (n : Int) : ppInt n ≠ [] := by
  rw [ppInt]
  split
  · simp
  · exact ppNat_ne_nil n.toNat

mutual

theorem lenVal : ∀ (ind : Nat) (v : Json), jsize v ≤ (ppValue ind v).length
  | ind, .null => by simp [jsize, ppValue]
  | ind, .bool b => by cases b <;> simp [jsize, ppValue]
  | ind, .num n => by
    have := List.length_pos.mpr (ppInt_ne_nil n)
    simp [jsize, ppValue]
    omega
  | ind, .str s => by simp [jsize, ppValue, ppStr]
  | ind, .arr [] => by simp [jsize, lsize, ppValue]
  | ind, .arr (x :: xs) => by
    have h1 := lenVal (ind + 2) x
    have h2 := lenElems (ind + 2) xs
    simp [jsize, lsize, ppValue]
    omega
  | ind, .obj [] => by simp [jsize, msize, ppValue]
  | ind, .obj ((k, v) :: ms) => by
    have h1 := lenVal (ind + 2) v
    have h2 := lenMembers (ind + 2) ms
    simp [jsize, msize, ppValue]
    omega

theorem lenElems : ∀ (ind : Nat) (xs : List Json),
    lsize xs ≤ (ppElemsTail ind xs).length + 1
  | ind, [] => by simp [lsize, ppElemsTail]
  | ind, x :: xs => by
    have h1 := lenVal ind x
    have h2 := lenElems ind xs
    simp [lsize, ppElemsTail]
    omega

theorem lenMembers : ∀ (ind : Nat) (ms : List (List Char × Json)),
    msize ms ≤ (ppMembersTail ind ms).length + 1
  | ind, [] => by simp [msize, ppMembersTail]
  | ind, (k, v) :: ms => by
    have h1 := lenVal ind v
    have h2 := lenMembers ind ms
    simp [msize, ppMembersTail]
    omega

end

/-- The codec round trip: parsing serde's pretty output returns exactly the
value that was printed. -/
theorem jparse_pretty (v : Json) : jparse (toStringPretty v) = some v := by
  have hlen := lenVal 0 v
  have h := rtVal v 0 ((ppValue 0 v).length + 1) [] (by omega) (by decide)
  rw [List.append_nil] at h
  simp [jparse, toStringPretty, h, skipWs]

/-! ### Filesystem-level lemmas -/

theorem lookupFile_cons_self (l : List (Path × String)) (p : Path) (c : String) :
    lookupFile ((p, c) :: l) p = some c := by
  simp [lookupFile]

theorem lookupFile_cons_ne (l : List (Path × String)) {q p : Path} (c : String)
    (h : q ≠ p) : lookupFile ((q, c) :: l) p = lookupFile l p := by
  simp [lookupFile, h]

theorem lookupFile_ext (l m : List (Path × String)) (p : Path)
    (h : (lookupFile m p).isSome = true) : (lookupFile (l ++ m) p).isSome = true := by
  induction l with
  | nil => simpa using h
  | cons e t ih =>
    obtain ⟨q, s⟩ := e
    by_cases hq : q = p
    · subst hq
      simp [lookupFile]
    · simpa [lookupFile, hq] using ih

theorem dataFile_parent_ne {cwd par : Path} (h : Path.parent cwd = some par) :
    dataFile par ≠ dataFile cwd := by
  intro he
  cases cwd with
  | nil => simp [Path.parent] at h
  | cons x xs =>
    simp only [Path.parent, Option.some.injEq] at h
    have hlen := congrArg List.length he
    subst h
    simp [dataFile, List.length_dropLast] at hlen

theorem fileExists_congr {fs1 fs2 : FS} (h : fs1.files = fs2.files) (p : Path) :
    fs1.fileExists p = fs2.fileExists p := by
  simp [FS.fileExists, h]

theorem appDataFallback_frame (env : Env) (fs : FS) :
    (appDataFallback env fs).1.files = fs.files ∧
    (appDataFallback env fs).1.failWrites = fs.failWrites ∧
    (appDataFallback env fs).1.failCopies = fs.failCopies ∧
    (appDataFallback env fs).1.failCreates = fs.failCreates := by
  unfold appDataFallback
  cases ha : env.app_data_dir with
  | error e => simp [ha]
  | ok add =>
    by_cases hd : fs.dirExists add = true
    · simp [ha, hd]
    · by_cases hcr : add ∈ fs.failCreates
      · simp [ha, hd, FS.createDirAll, hcr]
      · simp [ha, hd, FS.createDirAll, hcr]

theorem resolve_frame (env : Env) (fs : FS) :
    (get_questions_path env fs).1.files = fs.files ∧
    (get_questions_path env fs).1.failWrites = fs.failWrites ∧
    (get_questions_path env fs).1.failCopies = fs.failCopies ∧
    (get_questions_path env fs).1.failCreates = fs.failCreates := by
  unfold get_questions_path
  split
  · simp
  · split
    · simp
    · split
      · split
        · simp
        · exact appDataFallback_frame env fs
      · exact appDataFallback_frame env fs

theorem resolve_dev {env : Env} {fs : FS} {cwd : Path}
    (hc : env.current_dir = some cwd)
    (hdev : fs.fileExists (dataFile cwd) = true) :
    get_questions_path env fs = (fs, .ok (dataFile cwd)) := by
  unfold get_questions_path
  rw [hc]
  simp [hdev]

theorem resolve_parent {env : Env} {fs : FS} {cwd par : Path}
    (hc : env.current_dir = some cwd)
    (hdev : fs.fileExists (dataFile cwd) = false)
    (hp : Path.parent cwd = some par)
    (hpe : fs.fileExists (dataFile par) = true) :
    get_questions_path env fs = (fs, .ok (dataFile par)) := by
  unfold get_questions_path
  rw [hc]
  simp [hdev, hp, hpe]

theorem resolve_fb {env : Env} {fs : FS} {cwd : Path}
    (hc : env.current_dir = some cwd)
    (hdev : fs.fileExists (dataFile cwd) = false)
    (hpar : ∀ par, Path.parent cwd = some par → fs.fileExists (dataFile par) = false) :
    get_questions_path env fs = appDataFallback env fs := by
  unfold get_questions_path
  rw [hc]
  cases hp : Path.parent cwd with
  | none => simp [hdev, hp]
  | some par => simp [hdev, hp, hpar par hp]

theorem resolve_nocwd {env : Env} (fs : FS) (hc : env.current_dir = none) :
    get_questions_path env fs = (fs, .error "Failed to get current dir") := by
  unfold get_questions_path
  rw [hc]

theorem appDF_err {env : Env} (fs : FS) {e : String}
    (ha : env.app_data_dir = .error e) :
    appDataFallback env fs = (fs, .error ("Failed to get app data dir: " ++ e)) := by
  unfold appDataFallback
  rw [ha]

theorem appDF_ok_dir {env : Env} {fs : FS} {add : Path}
    (ha : env.app_data_dir = .ok add) (hd : fs.dirExists add = true) :
    appDataFallback env fs = (fs, .ok (add ++ ["questions.json"])) := by
  unfold appDataFallback
  rw [ha]
  simp [hd]

theorem appDF_ok_create {env : Env} {fs : FS} {add : Path}
    (ha : env.app_data_dir = .ok add) (hd : fs.dirExists add = false)
    (hcr : (add ∈ fs.failCreates) = False) :
    appDataFallback env fs
      = ({ fs with dirs := add :: fs.dirs }, .ok (add ++ ["questions.json"])) := by
  unfold appDataFallback
  rw [ha]
  simp [hd, FS.createDirAll, hcr]

theorem appDF_create_fail {env : Env} {fs : FS} {add : Path}
    (ha : env.app_data_dir = .ok add) (hd : fs.dirExists add = false)
    (hcr : add ∈ fs.failCreates) :
    appDataFallback env fs
      = (fs, .error ("Failed to create app data dir: " ++ "create dir failed")) := by
  unfold appDataFallback
  rw [ha]
  simp [hd, FS.createDirAll, hcr]

/-- Inversion of a successful app-data fallback. -/
theorem appDF_ok_cases {env : Env} {fs fs1 : FS} {P : Path}
    (h : appDataFallback env fs = (fs1, .ok P)) :
    fs1.files = fs.files ∧
      ∃ add, env.app_data_dir = .ok add ∧ P = add ++ ["questions.json"] ∧
        fs1.dirExists add = true := by
  cases ha : env.app_data_dir with
  | error e =>
    rw [appDF_err fs ha] at h
    simp at h
  | ok add =>
    by_cases hd : fs.dirExists add = true
    · rw [appDF_ok_dir ha hd] at h
      obtain ⟨rfl, h2⟩ := Prod.mk.injEq .. ▸ h
      exact ⟨rfl, add, rfl, by simpa using h2.symm, hd⟩
    · have hd' : fs.dirExists add = false := by simpa using hd
      by_cases hcr : add ∈ fs.failCreates
      · rw [appDF_create_fail ha hd' hcr] at h
        simp at h
      · rw [appDF_ok_create ha hd' (by simpa using hcr)] at h
        obtain ⟨h1, h2⟩ := Prod.mk.injEq .. ▸ h
        subst h1
        exact ⟨rfl, add, rfl, by simpa using h2.symm, by simp [FS.dirExists]⟩

/-- Inversion of a successful path resolution: which branch produced the
path, and what the state change was. -/
theorem resolve_ok_cases {env : Env} {fs fs1 : FS} {P : Path}
    (h : get_questions_path env fs = (fs1, .ok P)) :
    ∃ cwd, env.current_dir = some cwd ∧ fs1.files = fs.files ∧
      ((fs.fileExists (dataFile cwd) = true ∧ fs1 = fs ∧ P = dataFile cwd) ∨
       (fs.fileExists (dataFile cwd) = false ∧
        ((∃ par, Path.parent cwd = some par ∧ fs.fileExists (dataFile par) = true ∧
            fs1 = fs ∧ P = dataFile par) ∨
         ((∀ par, Path.parent cwd = some par → fs.fileExists (dataFile par) = false) ∧
          ∃ add, env.app_data_dir = .ok add ∧ P = add ++ ["questions.json"] ∧
            fs1.dirExists add = true)))) := by
  cases hc : env.current_dir with
  | none =>
    rw [resolve_nocwd fs hc] at h
    simp at h
  | some cwd =>
    refine ⟨cwd, rfl, ?_⟩
    by_cases hdev : fs.fileExists (dataFile cwd) = true
    · rw [resolve_dev hc hdev] at h
      obtain ⟨h1, h2⟩ := Prod.mk.injEq .. ▸ h
      subst h1
      exact ⟨rfl, Or.inl ⟨hdev, rfl, by simpa using h2.symm⟩⟩
    · have hdev' : fs.fileExists (dataFile cwd) = false := by simpa using hdev
      cases hp : Path.parent cwd with
      | none =>
        have hpar : ∀ par, Path.parent cwd = some par →
            fs.fileExists (dataFile par) = false := by
          intro par hpar2
          rw [hpar2] at hp
          cases hp
        rw [resolve_fb hc hdev' hpar] at h
        obtain ⟨hfi, add, ha, hP, hda⟩ := appDF_ok_cases h
        exact ⟨hfi, Or.inr ⟨hdev', Or.inr ⟨fun par hx => Option.noConfusion hx,
          add, ha, hP, hda⟩⟩⟩
      | some par =>
        by_cases hpe : fs.fileExists (dataFile par) = true
        · rw [resolve_parent hc hdev' hp hpe] at h
          obtain ⟨h1, h2⟩ := Prod.mk.injEq .. ▸ h
          subst h1
          exact ⟨rfl, Or.inr ⟨hdev', Or.inl ⟨par, rfl, hpe, rfl, by simpa using h2.symm⟩⟩⟩
        · have hpe' : fs.fileExists (dataFile par) = false := by simpa using hpe
          have hpar : ∀ par2, Path.parent cwd = some par2 →
              fs.fileExists (dataFile par2) = false := by
            intro par2 hpar2
            rw [hpar2] at hp
            cases hp
            exact hpe'
          rw [resolve_fb hc hdev' hpar] at h
          obtain ⟨hfi, add, ha, hP, hda⟩ := appDF_ok_cases h
          exact ⟨hfi, Or.inr ⟨hdev', Or.inr
            ⟨fun par2 hx => Option.some.inj hx ▸ hpe', add, ha, hP, hda⟩⟩⟩

/-- A successful resolution is stable: run again on the state it returned,
it returns the same path and changes nothing. -/
theorem resolve_stable {env : Env} {fs fs1 : FS} {P : Path}
    (h : get_questions_path env fs = (fs1, .ok P)) :
    get_questions_path env fs1 = (fs1, .ok P) := by
  obtain ⟨cwd, hc, hfiles, hcases⟩ := resolve_ok_cases h
  rcases hcases with ⟨hdev, rfl, rfl⟩ | ⟨hdev, hrest⟩
  · exact resolve_dev hc hdev
  · rcases hrest with ⟨par, hp, hpe, rfl, rfl⟩ | ⟨hpar, add, ha, hP, hda⟩
    · exact resolve_parent hc hdev hp hpe
    · rw [hP, resolve_fb hc (by rw [fileExists_congr hfiles]; exact hdev)
        (fun par hp2 => by rw [fileExists_congr hfiles]; exact hpar par hp2),
        appDF_ok_dir ha hda]

/-- After writing any contents at a successfully resolved path, resolution
returns the same path again and changes nothing. -/
theorem resolve_after_write {env : Env} {fs fs1 : FS} {P : Path} {c : String}
    (h : get_questions_path env fs = (fs1, .ok P)) :
    get_questions_path env { fs1 with files := (P, c) :: fs1.files }
      = ({ fs1 with files := (P, c) :: fs1.files }, .ok P) := by
  obtain ⟨cwd, hc, hfiles, hcases⟩ := resolve_ok_cases h
  rcases hcases with ⟨hdev, rfl, rfl⟩ | ⟨hdev, hrest⟩
  · exact resolve_dev hc (by simp [FS.fileExists, lookupFile])
  · rcases hrest with ⟨par, hp, hpe, rfl, rfl⟩ | ⟨hpar, add, ha, hP, hda⟩
    · refine resolve_parent hc ?_ hp (by simp [FS.fileExists, lookupFile])
      simp only [FS.fileExists, lookupFile_cons_ne _ c (dataFile_parent_ne hp)]
      exact hdev
    · by_cases hPdev : P = dataFile cwd
      · subst hPdev
        exact resolve_dev hc (by simp [FS.fileExists, lookupFile])
      · have hdev2 : FS.fileExists { fs1 with files := (P, c) :: fs1.files }
            (dataFile cwd) = false := by
          simp only [FS.fileExists, lookupFile_cons_ne _ c hPdev]
          rw [show lookupFile fs1.files (dataFile cwd)
              = lookupFile fs.files (dataFile cwd) from by rw [hfiles]]
          exact hdev
        have hda2 : FS.dirExists { fs1 with files := (P, c) :: fs1.files } add = true := by
          simpa [FS.dirExists] using hda
        cases hp : Path.parent cwd with
        | none =>
          subst hP
          rw [resolve_fb hc hdev2 (fun par hpar2 => by rw [hpar2] at hp; cases hp),
            appDF_ok_dir ha hda2]
        | some par =>
          by_cases hPpar : P = dataFile par
          · subst hPpar
            exact resolve_parent hc hdev2 hp (by simp [FS.fileExists, lookupFile])
          · have hpe2 : FS.fileExists { fs1 with files := (P, c) :: fs1.files }
                (dataFile par) = false := by
              simp only [FS.fileExists, lookupFile_cons_ne _ c hPpar]
              rw [show lookupFile fs1.files (dataFile par)
                  = lookupFile fs.files (dataFile par) from by rw [hfiles]]
              exact hpar par hp
            subst hP
            rw [resolve_fb hc hdev2 (fun par2 hpar2 => by
              rw [hpar2] at hp
              exact Option.some.inj hp ▸ hpe2), appDF_ok_dir ha hda2]

/-! ### Behaviour of init, save and read -/

theorem init_resolve_err {env : Env} {fs fs1 : FS} {e : String}
    (hg : get_questions_path env fs = (fs1, .error e)) :
    init_questions env fs = (fs1, .error e) := by
  unfold init_questions
  rw [hg]

theorem init_exists {env : Env} {fs fs1 : FS} {P : Path}
    (hg : get_questions_path env fs = (fs1, .ok P))
    (hex : fs1.fileExists P = true) :
    init_questions env fs = (fs1, .ok ()) := by
  unfold init_questions
  rw [hg]
  simp [hex]

theorem init_resdir_err {env : Env} {fs fs1 : FS} {P : Path} {e : String}
    (hg : get_questions_path env fs = (fs1, .ok P))
    (hex : fs1.fileExists P = false)
    (hr : env.resource_dir = .error e) :
    init_questions env fs = (fs1, .error ("Failed to get resource dir: " ++ e)) := by
  unfold init_questions
  rw [hg]
  simp [hex, hr]

theorem init_copy {env : Env} {fs fs1 : FS} {P rd : Path} {cc : String}
    (hg : get_questions_path env fs = (fs1, .ok P))
    (hex : fs1.fileExists P = false)
    (hr : env.resource_dir = .ok rd)
    (hres : lookupFile fs1.files (rd ++ ["data", "questions.json"]) = some cc)
    (hfail : (fs1.failCopies.contains (rd ++ ["data", "questions.json"], P)
      || fs1.failWrites.contains P) = false) :
    init_questions env fs = ({ fs1 with files := (P, cc) :: fs1.files }, .ok ()) := by
  unfold init_questions
  rw [hg]
  have hex' : (lookupFile fs1.files P).isSome = false := hex
  have hfail' : ¬((rd ++ ["data", "questions.json"], P) ∈ fs1.failCopies
      ∨ P ∈ fs1.failWrites) := by simpa using hfail
  simp [hex', hr, FS.fileExists, hres, FS.copyFile, hfail']

theorem init_copy_fail {env : Env} {fs fs1 : FS} {P rd : Path} {cc : String}
    (hg : get_questions_path env fs = (fs1, .ok P))
    (hex : fs1.fileExists P = false)
    (hr : env.resource_dir = .ok rd)
    (hres : lookupFile fs1.files (rd ++ ["data", "questions.json"]) = some cc)
    (hfail : (fs1.failCopies.contains (rd ++ ["data", "questions.json"], P)
      || fs1.failWrites.contains P) = true) :
    init_questions env fs
      = (fs1, .error ("Failed to copy questions from resources: " ++ "copy failed")) := by
  unfold init_questions
  rw [hg]
  have hex' : (lookupFile fs1.files P).isSome = false := hex
  have hfail' : (rd ++ ["data", "questions.json"], P) ∈ fs1.failCopies
      ∨ P ∈ fs1.failWrites := by
    rcases Bool.or_eq_true_iff.mp hfail with h | h
    · exact Or.inl (by simpa using h)
    · exact Or.inr (by simpa using h)
  simp [hex', hr, FS.fileExists, hres, FS.copyFile, hfail']

theorem init_write {env : Env} {fs fs1 : FS} {P rd : Path}
    (hg : get_questions_path env fs = (fs1, .ok P))
    (hex : fs1.fileExists P = false)
    (hr : env.resource_dir = .ok rd)
    (hres : lookupFile fs1.files (rd ++ ["data", "questions.json"]) = none)
    (hw : fs1.failWrites.contains P = false) :
    init_questions env fs
      = ({ fs1 with files := (P, empty_questions) :: fs1.files }, .ok ()) := by
  unfold init_questions
  rw [hg]
  have hex' : (lookupFile fs1.files P).isSome = false := hex
  have hw' : ¬(P ∈ fs1.failWrites) := by simpa using hw
  simp [hex', hr, FS.fileExists, hres, FS.writeFile, hw']

theorem init_write_fail {env : Env} {fs fs1 : FS} {P rd : Path}
    (hg : get_questions_path env fs = (fs1, .ok P))
    (hex : fs1.fileExists P = false)
    (hr : env.resource_dir = .ok rd)
    (hres : lookupFile fs1.files (rd ++ ["data", "questions.json"]) = none)
    (hw : fs1.failWrites.contains P = true) :
    init_questions env fs
      = (fs1, .error ("Failed to create empty questions file: " ++ "write failed")) := by
  unfold init_questions
  rw [hg]
  have hex' : (lookupFile fs1.files P).isSome = false := hex
  have hw' : P ∈ fs1.failWrites := by simpa using hw
  simp [hex', hr, FS.fileExists, hres, FS.writeFile, hw']

/-- Inversion of a successful initialization: either the file was already
there, or exactly one entry was written at the resolved path. -/
theorem init_ok_cases {env : Env} {fs fs' : FS}
    (h : init_questions env fs = (fs', .ok ())) :
    ∃ fs1 P, get_questions_path env fs = (fs1, .ok P) ∧
      ((fs1.fileExists P = true ∧ fs' = fs1) ∨
       (fs1.fileExists P = false ∧
        ∃ c, fs' = { fs1 with files := (P, c) :: fs1.files })) := by
  rcases hg : get_questions_path env fs with ⟨fs1, r⟩
  cases r with
  | error e =>
    rw [init_resolve_err hg] at h
    simp at h
  | ok P =>
    refine ⟨fs1, P, rfl, ?_⟩
    by_cases hex : fs1.fileExists P = true
    · rw [init_exists hg hex] at h
      obtain ⟨h1, _⟩ := Prod.mk.injEq .. ▸ h
      exact Or.inl ⟨hex, h1.symm⟩
    · have hex' : fs1.fileExists P = false := by simpa using hex
      cases hr : env.resource_dir with
      | error e =>
        rw [init_resdir_err hg hex' hr] at h
        simp at h
      | ok rd =>
        cases hres : lookupFile fs1.files (rd ++ ["data", "questions.json"]) with
        | some cc =>
          by_cases hfail : (fs1.failCopies.contains (rd ++ ["data", "questions.json"], P)
              || fs1.failWrites.contains P) = true
          · rw [init_copy_fail hg hex' hr hres hfail] at h
            simp at h
          · rw [init_copy hg hex' hr hres (by simpa using hfail)] at h
            obtain ⟨h1, _⟩ := Prod.mk.injEq .. ▸ h
            exact Or.inr ⟨hex', cc, h1.symm⟩
        | none =>
          by_cases hw : fs1.failWrites.contains P = true
          · rw [init_write_fail hg hex' hr hres hw] at h
            simp at h
          · rw [init_write hg hex' hr hres (by simpa using hw)] at h
            obtain ⟨h1, _⟩ := Prod.mk.injEq .. ▸ h
            exact Or.inr ⟨hex', empty_questions, h1.symm⟩

/-- A second initialization right after a successful one is a no-op. -/
theorem init_stable {env : Env} {fs fs' : FS}
    (h : init_questions env fs = (fs', .ok ())) :
    init_questions env fs' = (fs', .ok ()) := by
  obtain ⟨fs1, P, hg, hcases⟩ := init_ok_cases h
  rcases hcases with ⟨hex, rfl⟩ | ⟨hex, c, rfl⟩
  · exact init_exists (resolve_stable hg) hex
  · exact init_exists (resolve_after_write hg) (by simp [FS.fileExists, lookupFile])

theorem read_resolved {env : Env} {fs fs1 : FS} {P : Path} {c : String}
    (hg : get_questions_path env fs = (fs1, .ok P))
    (hc : lookupFile fs1.files P = some c) :
    read_questions env fs = (fs1, .ok c) := by
  unfold read_questions
  rw [init_exists hg (by simp [FS.fileExists, hc])]
  simp [resolve_stable hg, hc]

theorem save_ok {env : Env} {fs fs1 : FS} {P : Path} {t : String} {v : Json}
    (hg : get_questions_path env fs = (fs1, .ok P))
    (hp : jparse t = some v)
    (hw : fs1.failWrites.contains P = false) :
    save_questions env fs t
      = ({ fs1 with files := (P, toStringPretty v) :: fs1.files },
         .ok ("Questions saved successfully to " ++ pathRepr P)) := by
  unfold save_questions
  rw [hg]
  have hw' : ¬(P ∈ fs1.failWrites) := by simpa using hw
  simp [hp, FS.writeFile, hw']

/-- Inversion of a successful save: the write happened at the resolved
path, with the pretty-printed parse result as contents. -/
theorem save_ok_cases {env : Env} {fs fs2 : FS} {t msg : String}
    (h : save_questions env fs t = (fs2, .ok msg)) :
    ∃ fs1 P v, get_questions_path env fs = (fs1, .ok P) ∧ jparse t = some v ∧
      fs2 = { fs1 with files := (P, toStringPretty v) :: fs1.files } := by
  rcases hg : get_questions_path env fs with ⟨fs1, r⟩
  cases r with
  | error e =>
    unfold save_questions at h
    rw [hg] at h
    simp at h
  | ok P =>
    cases hp : jparse t with
    | none =>
      unfold save_questions at h
      rw [hg] at h
      simp [hp] at h
    | some v =>
      by_cases hw : fs1.failWrites.contains P = false
      · rw [save_ok hg hp hw] at h
        obtain ⟨h1, _⟩ := Prod.mk.injEq .. ▸ h
        exact ⟨fs1, P, v, rfl, rfl, h1.symm⟩
      · unfold save_questions at h
        rw [hg] at h
        have hw' : P ∈ fs1.failWrites := by
          simp only [Bool.not_eq_false] at hw
          simpa using hw
        simp [hp, FS.writeFile, hw'] at h

/-- A save whose input does not parse returns an error and writes no file:
the file table is untouched. -/
theorem save_parse_fail {env : Env} (fs : FS) {t : String} (hp : jparse t = none) :
    (save_questions env fs t).1.files = fs.files ∧
      okB (save_questions env fs t).2 = false := by
  rcases hg : get_questions_path env fs with ⟨fs1, r⟩
  have hfs1 : fs1.files = fs.files := by
    have := (resolve_frame env fs).1
    rw [hg] at this
    exact this
  unfold save_questions
  rw [hg]
  cases r with
  | error e => simp [hfs1, okB]
  | ok P => simp [hp, hfs1, okB]

/-- Inversion of a successful read: the text returned is exactly the file
contents at the path that resolution returns on the final state. -/
theorem read_ok_cases {env : Env} {fs fs2 : FS} {out : String}
    (h : read_questions env fs = (fs2, .ok out)) :
    ∃ P, get_questions_path env fs2 = (fs2, .ok P) ∧
      lookupFile fs2.files P = some out := by
  rcases hi : init_questions env fs with ⟨fs1, ri⟩
  unfold read_questions at h
  rw [hi] at h
  cases ri with
  | error e => simp at h
  | ok u =>
    simp only [] at h
    rcases hg : get_questions_path env fs1 with ⟨fs2x, r2⟩
    rw [hg] at h
    cases r2 with
    | error e => simp at h
    | ok P =>
      simp only [] at h
      cases hl : lookupFile fs2x.files P with
      | none => simp [hl] at h
      | some c =>
        simp only [hl] at h
        obtain ⟨h1, h2⟩ := Prod.mk.injEq .. ▸ h
        subst h1
        refine ⟨P, resolve_stable hg, ?_⟩
        rw [hl]
        simpa using h2

/-- Everything the initializer does to the file table is to prepend
entries. -/
theorem init_files_ext (env : Env) (fs : FS) :
    ∃ l, (init_questions env fs).1.files = l ++ fs.files := by
  rcases hg : get_questions_path env fs with ⟨fs1, r⟩
  have hfs1 : fs1.files = fs.files := by
    have := (resolve_frame env fs).1
    rw [hg] at this
    exact this
  cases r with
  | error e =>
    rw [init_resolve_err hg]
    exact ⟨[], by simp [hfs1]⟩
  | ok P =>
    by_cases hex : fs1.fileExists P = true
    · rw [init_exists hg hex]
      exact ⟨[], by simp [hfs1]⟩
    · have hex' : fs1.fileExists P = false := by simpa using hex
      cases hr : env.resource_dir with
      | error e =>
        rw [init_resdir_err hg hex' hr]
        exact ⟨[], by simp [hfs1]⟩
      | ok rd =>
        cases hres : lookupFile fs1.files (rd ++ ["data", "questions.json"]) with
        | some cc =>
          by_cases hfail : (fs1.failCopies.contains (rd ++ ["data", "questions.json"], P)
              || fs1.failWrites.contains P) = true
          · rw [init_copy_fail hg hex' hr hres hfail]
            exact ⟨[], by simp [hfs1]⟩
          · rw [init_copy hg hex' hr hres (by simpa using hfail)]
            exact ⟨[(P, cc)], by simp [hfs1]⟩
        | none =>
          by_cases hw : fs1.failWrites.contains P = true
          · rw [init_write_fail hg hex' hr hres hw]
            exact ⟨[], by simp [hfs1]⟩
          · rw [init_write hg hex' hr hres (by simpa using hw)]
            exact ⟨[(P, empty_questions)], by simp [hfs1]⟩

/-- Everything a save does to the file table is to prepend entries. -/
theorem save_files_ext (env : Env) (fs : FS) (t : String) :
    ∃ l, (save_questions env fs t).1.files = l ++ fs.files := by
  rcases hg : get_questions_path env fs with ⟨fs1, r⟩
  have hfs1 : fs1.files = fs.files := by
    have := (resolve_frame env fs).1
    rw [hg] at this
    exact this
  unfold save_questions
  rw [hg]
  cases r with
  | error e => exact ⟨[], by simp [hfs1]⟩
  | ok P =>
    cases hp : jparse t with
    | none => exact ⟨[], by simp [hfs1]⟩
    | some v =>
      by_cases hw : P ∈ fs1.failWrites
      · exact ⟨[], by simp [FS.writeFile, hw, hfs1]⟩
      · exact ⟨[(P, toStringPretty v)], by simp [FS.writeFile, hw, hfs1]⟩

/-- Everything a read does to the file table is to prepend entries. -/
theorem read_files_ext (env : Env) (fs : FS) :
    ∃ l, (read_questions env fs).1.files = l ++ fs.files := by
  rcases hi : init_questions env fs with ⟨fs1, ri⟩
  obtain ⟨l1, hl1⟩ := init_files_ext env fs
  rw [hi] at hl1
  simp only [] at hl1
  unfold read_questions
  rw [hi]
  cases ri with
  | error e => exact ⟨l1, by simpa using hl1⟩
  | ok u =>
    simp only []
    rcases hg : get_questions_path env fs1 with ⟨fs2x, r2⟩
    have hfs2 : fs2x.files = fs1.files := by
      have := (resolve_frame env fs1).1
      rw [hg] at this
      exact this
    cases r2 with
    | error e => exact ⟨l1, by simp [hfs2, hl1]⟩
    | ok P =>
      simp only []
      cases hl : lookupFile fs2x.files P with
      | none => exact ⟨l1, by simp [hl, hfs2, hl1]⟩
      | some c => exact ⟨l1, by simp [hl, hfs2, hl1]⟩

theorem read_init_err {env : Env} {fs fs1 : FS} {e : String}
    (hi : init_questions env fs = (fs1, .error e)) :
    read_questions env fs = (fs1, .error e) := by
  unfold read_questions
  rw [hi]

theorem read_eq_of {env : Env} {fs fsI fs2 : FS} {P : Path} {c : String}
    (hi : init_questions env fs = (fsI, .ok ()))
    (hg : get_questions_path env fsI = (fs2, .ok P))
    (hl : lookupFile fs2.files P = some c) :
    read_questions env fs = (fs2, .ok c) := by
  unfold read_questions
  rw [hi]
  simp [hg, hl]

theorem jparse_empty_questions : jparse empty_questions = some defaultDoc := rfl

/-! ### The claims -/

/-- C2: for every input text that does not parse as JSON, `save_questions`
returns an error and performs no write: the whole file table, and in
particular the contents (or absence) of the file at any path, is exactly
what it was before the call. -/
theorem C2_save_invalid_json_no_write (env : Env) (fs : FS) (t : String)
    (hp : jparse t = none) :
    okB (save_questions env fs t).2 = false ∧
      (save_questions env fs t).1.files = fs.files ∧
      ∀ p, lookupFile (save_questions env fs t).1.files p = lookupFile fs.files p := by
  obtain ⟨h1, h2⟩ := save_parse_fail fs hp
  exact ⟨h2, h1, fun p => by rw [h1]⟩

theorem C2_witness :
    okB (save_questions envW fsD "\x7bnot valid json").2 = false ∧
      (save_questions envW fsD "\x7bnot valid json").1.files = fsD.files :=
  ⟨(C2_save_invalid_json_no_write envW fsD "\x7bnot valid json" rfl).1,
   (C2_save_invalid_json_no_write envW fsD "\x7bnot valid json" rfl).2.1⟩

/-- C10: `save_questions` enforces no document structure at all: any text
that parses as JSON, including non-object values such as `null`, a bare
number or an array, is saved (when the filesystem write succeeds), and the
file then holds the pretty-printed form of the parsed value.  No key is
ever inspected. -/
theorem C10_save_any_valid_json (env : Env) (fs fs1 : FS) (t : String) (v : Json)
    (P : Path)
    (hg : get_questions_path env fs = (fs1, .ok P))
    (hp : jparse t = some v)
    (hw : fs1.failWrites.contains P = false) :
    save_questions env fs t
        = ({ fs1 with files := (P, toStringPretty v) :: fs1.files },
           .ok ("Questions saved successfully to " ++ pathRepr P)) ∧
      lookupFile (save_questions env fs t).1.files P = some (toStringPretty v) := by
  have h := save_ok hg hp hw
  refine ⟨h, ?_⟩
  rw [h]
  exact lookupFile_cons_self _ _ _

theorem C10_witness :
    save_questions envW fsW "null"
        = ({ fsW with files := (["ad", "questions.json"], toStringPretty Json.null)
              :: fsW.files },
           .ok ("Questions saved successfully to "
              ++ pathRepr ["ad", "questions.json"])) :=
  (C10_save_any_valid_json envW fsW fsW "null" Json.null
    ["ad", "questions.json"] rfl rfl rfl).1

/-- C4: the path resolver returns exactly one path by precedence — the
dev-tree file under the current directory when it exists, else the same
file one directory up when it exists, else `questions.json` in the
per-user app-data directory, creating that directory when missing — and
signals an error when the app-data directory cannot be determined or
created. -/
theorem C4_resolver_precedence (env : Env) (fs : FS) (cwd : Path)
    (hc : env.current_dir = some cwd) :
    (fs.fileExists (dataFile cwd) = true →
      get_questions_path env fs = (fs, .ok (dataFile cwd))) ∧
    (∀ par, fs.fileExists (dataFile cwd) = false → Path.parent cwd = some par →
      fs.fileExists (dataFile par) = true →
      get_questions_path env fs = (fs, .ok (dataFile par))) ∧
    (∀ add, fs.fileExists (dataFile cwd) = false →
      (∀ par, Path.parent cwd = some par → fs.fileExists (dataFile par) = false) →
      env.app_data_dir = .ok add →
      ((fs.dirExists add = true →
         get_questions_path env fs = (fs, .ok (add ++ ["questions.json"]))) ∧
       (fs.dirExists add = false → (add ∈ fs.failCreates) = False →
         get_questions_path env fs
           = ({ fs with dirs := add :: fs.dirs }, .ok (add ++ ["questions.json"]))) ∧
       (fs.dirExists add = false → add ∈ fs.failCreates →
         okB (get_questions_path env fs).2 = false))) ∧
    (∀ e, fs.fileExists (dataFile cwd) = false →
      (∀ par, Path.parent cwd = some par → fs.fileExists (dataFile par) = false) →
      env.app_data_dir = .error e →
      okB (get_questions_path env fs).2 = false) := by
  refine ⟨fun hdev => resolve_dev hc hdev,
    fun par hdev hp hpe => resolve_parent hc hdev hp hpe,
    fun add hdev hpar ha => ⟨fun hd => ?_, fun hd hcr => ?_, fun hd hcr => ?_⟩,
    fun e hdev hpar ha => ?_⟩
  · rw [resolve_fb hc hdev hpar, appDF_ok_dir ha hd]
  · rw [resolve_fb hc hdev hpar, appDF_ok_create ha hd hcr]
  · rw [resolve_fb hc hdev hpar, appDF_create_fail ha hd hcr]
    rfl
  · rw [resolve_fb hc hdev hpar, appDF_err fs ha]
    rfl

theorem C4_witness :
    get_questions_path envW fsD = (fsD, .ok ["w", "src", "data", "questions.json"]) :=
  (C4_resolver_precedence envW fsD ["w"] rfl).1 rfl

/-- C5: when the development-tree file (under the working directory or its
parent) exists, path resolution is free of side effects: the returned
state is the input state unchanged, so the per-user app-data directory is
never created or touched. -/
theorem C5_dev_present_frame (env : Env) (fs : FS) (cwd : Path)
    (hc : env.current_dir = some cwd)
    (hpres : fs.fileExists (dataFile cwd) = true ∨
      ∃ par, Path.parent cwd = some par ∧ fs.fileExists (dataFile par) = true) :
    (get_questions_path env fs).1 = fs ∧
      ∃ p, get_questions_path env fs = (fs, .ok p) := by
  by_cases hdev : fs.fileExists (dataFile cwd) = true
  · rw [resolve_dev hc hdev]
    exact ⟨rfl, dataFile cwd, rfl⟩
  · rcases hpres with hdev2 | ⟨par, hp, hpe⟩
    · exact absurd hdev2 hdev
    · rw [resolve_parent hc (by simpa using hdev) hp hpe]
      exact ⟨rfl, dataFile par, rfl⟩

theorem C5_witness :
    (get_questions_path envW fsD).1 = fsD ∧
      ∃ p, get_questions_path envW fsD = (fsD, .ok p) :=
  C5_dev_present_frame envW fsD ["w"] rfl (Or.inl rfl)

/-- C6: initialization is idempotent: after a successful `init_questions`,
an immediately repeated call on the resulting state performs no write and
returns the same state unchanged. -/
theorem C6_init_idempotent (env : Env) (fs fs2 : FS)
    (h : init_questions env fs = (fs2, .ok ())) :
    init_questions env fs2 = (fs2, .ok ()) :=
  init_stable h

theorem C6_witness :
    init_questions envW ⟨[(["ad", "questions.json"], empty_questions)], [["ad"]], [], [], []⟩
      = (⟨[(["ad", "questions.json"], empty_questions)], [["ad"]], [], [], []⟩, .ok ()) :=
  C6_init_idempotent envW fsW _ rfl

/-- C9: once the document file is present, no command — greet, save, read
or init — ever removes it: a present path stays present across every
command invocation. -/
theorem C9_present_file_never_removed (env : Env) (fs : FS) (cmd : Cmd) (p : Path)
    (h : (lookupFile fs.files p).isSome = true) :
    (lookupFile (runCmd env fs cmd).1.files p).isSome = true := by
  cases cmd with
  | greetCmd name => simpa [runCmd] using h
  | saveCmd t =>
    obtain ⟨l, hl⟩ := save_files_ext env fs t
    rw [show runCmd env fs (.saveCmd t) = save_questions env fs t from rfl, hl]
    exact lookupFile_ext _ _ _ h
  | readCmd =>
    obtain ⟨l, hl⟩ := read_files_ext env fs
    rw [show runCmd env fs .readCmd = read_questions env fs from rfl, hl]
    exact lookupFile_ext _ _ _ h
  | initCmd =>
    obtain ⟨l, hl⟩ := init_files_ext env fs
    rcases hi : init_questions env fs with ⟨fs1, ri⟩
    rw [hi] at hl
    simp only [] at hl
    have hrun : (runCmd env fs .initCmd).1 = fs1 := by
      cases ri <;> simp [runCmd, hi]
    rw [hrun, hl]
    exact lookupFile_ext _ _ _ h

theorem C9_witness :
    (lookupFile (runCmd envW fsD (.saveCmd "null")).1.files
      ["w", "src", "data", "questions.json"]).isSome = true :=
  C9_present_file_never_removed envW fsD (.saveCmd "null")
    ["w", "src", "data", "questions.json"] rfl

/-- C1 (counterexample to the claim as stated): a state in which the
bundled resource exists, the copy of it fails, and the fallback write of
the minimal structure would succeed — yet `init_questions` signals an
error, because a failed copy attempt is signalled directly with no
fallback write. -/
theorem C1_counterexample :
    okB (init_questions envW fsX).2 = false ∧
      okB (fsX.writeFile ["ad", "questions.json"] empty_questions).2 = true ∧
      (init_questions envW fsX).1 = fsX :=
  ⟨rfl, rfl, rfl⟩

/-- C1 (amended): with the resolved path missing, `init_questions` signals
an error exactly when the resource directory cannot be determined, or the
bundled resource exists and the copy of it fails, or the resource is
missing and the fallback write fails.  In particular a merely missing
bundled resource alone never causes an error: the fallback write is
performed instead. -/
theorem C1_init_error_characterization (env : Env) (fs fs1 : FS) (P : Path)
    (hg : get_questions_path env fs = (fs1, .ok P))
    (hex : fs1.fileExists P = false) :
    okB (init_questions env fs).2 = false ↔
      ((∃ e, env.resource_dir = .error e) ∨
       (∃ rd, env.resource_dir = .ok rd ∧
         fs1.fileExists (rd ++ ["data", "questions.json"]) = true ∧
         (fs1.failCopies.contains (rd ++ ["data", "questions.json"], P)
           || fs1.failWrites.contains P) = true) ∨
       (∃ rd, env.resource_dir = .ok rd ∧
         fs1.fileExists (rd ++ ["data", "questions.json"]) = false ∧
         fs1.failWrites.contains P = true)) := by
  cases hr : env.resource_dir with
  | error e =>
    rw [init_resdir_err hg hex hr]
    exact iff_of_true rfl (Or.inl ⟨e, rfl⟩)
  | ok rd =>
    cases ho : lookupFile fs1.files (rd ++ ["data", "questions.json"]) with
    | some cc =>
      have hres : fs1.fileExists (rd ++ ["data", "questions.json"]) = true := by
        simp [FS.fileExists, ho]
      by_cases hfail : (fs1.failCopies.contains (rd ++ ["data", "questions.json"], P)
          || fs1.failWrites.contains P) = true
      · rw [init_copy_fail hg hex hr ho hfail]
        exact iff_of_true rfl (Or.inr (Or.inl ⟨rd, rfl, hres, hfail⟩))
      · rw [init_copy hg hex hr ho (by simpa using hfail)]
        refine iff_of_false (by simp [okB]) ?_
        rintro (⟨e, he⟩ | ⟨rd2, hrd2, _, hfailx⟩ | ⟨rd2, hrd2, hresx, _⟩)
        · cases he
        · cases hrd2
          exact hfail hfailx
        · cases hrd2
          rw [hres] at hresx
          cases hresx
    | none =>
      have hres : fs1.fileExists (rd ++ ["data", "questions.json"]) = false := by
        simp [FS.fileExists, ho]
      by_cases hw : fs1.failWrites.contains P = true
      · rw [init_write_fail hg hex hr ho hw]
        exact iff_of_true rfl (Or.inr (Or.inr ⟨rd, rfl, hres, hw⟩))
      · rw [init_write hg hex hr ho (by simpa using hw)]
        refine iff_of_false (by simp [okB]) ?_
        rintro (⟨e, he⟩ | ⟨rd2, hrd2, hresx, _⟩ | ⟨rd2, hrd2, _, hwx⟩)
        · cases he
        · cases hrd2
          rw [hres] at hresx
          cases hresx
        · cases hrd2
          exact hw hwx

theorem C1_witness :
    okB (init_questions envW fsW).2 = false ↔
      ((∃ e, Env.resource_dir envW = .error e) ∨
       (∃ rd, Env.resource_dir envW = .ok rd ∧
         fsW.fileExists (rd ++ ["data", "questions.json"]) = true ∧
         (fsW.failCopies.contains (rd ++ ["data", "questions.json"],
             ["ad", "questions.json"])
           || fsW.failWrites.contains ["ad", "questions.json"]) = true) ∨
       (∃ rd, Env.resource_dir envW = .ok rd ∧
         fsW.fileExists (rd ++ ["data", "questions.json"]) = false ∧
         fsW.failWrites.contains ["ad", "questions.json"] = true)) :=
  C1_init_error_characterization envW fsW fsW ["ad", "questions.json"] rfl rfl

/-- C7: with no file at the resolved path and no bundled resource, a
successful read returns text that parses to the minimal empty document
(parsed equality), and after a successful initialization the resolved
path holds syntactically valid JSON. -/
theorem C7_default_fallback (env : Env) (fs fs1 : FS) (P rd : Path)
    (hg : get_questions_path env fs = (fs1, .ok P))
    (hex : fs1.fileExists P = false)
    (hr : env.resource_dir = .ok rd)
    (hres : lookupFile fs1.files (rd ++ ["data", "questions.json"]) = none) :
    (∀ fs2 out, read_questions env fs = (fs2, .ok out) →
      out = empty_questions ∧ jparse out = some defaultDoc) ∧
    (∀ fs3, init_questions env fs = (fs3, .ok ()) →
      ∃ d, lookupFile fs3.files P = some d ∧ jparse d = some defaultDoc) := by
  by_cases hw : fs1.failWrites.contains P = true
  · have hi := init_write_fail hg hex hr hres hw
    constructor
    · intro fs2 out h
      rw [read_init_err hi] at h
      simp at h
    · intro fs3 h
      rw [hi] at h
      simp at h
  · have hi := init_write hg hex hr hres (by simpa using hw)
    constructor
    · intro fs2 out h
      rw [read_eq_of hi (resolve_after_write hg) (lookupFile_cons_self _ _ _)] at h
      obtain ⟨h1, h2⟩ := Prod.mk.injEq .. ▸ h
      have hout : out = empty_questions := by simpa using h2.symm
      exact ⟨hout, by rw [hout]; exact jparse_empty_questions⟩
    · intro fs3 h
      rw [hi] at h
      obtain ⟨h1, _⟩ := Prod.mk.injEq .. ▸ h
      refine ⟨empty_questions, ?_, jparse_empty_questions⟩
      rw [← h1]
      exact lookupFile_cons_self _ _ _

theorem C7_witness :
    empty_questions = empty_questions ∧ jparse empty_questions = some defaultDoc :=
  (C7_default_fallback envW fsW fsW ["ad", "questions.json"] ["res"]
    rfl rfl rfl rfl).1
    ⟨[(["ad", "questions.json"], empty_questions)], [["ad"]], [], [], []⟩
    empty_questions rfl

/-- C8: a successful read returns exactly the raw contents stored at the
path resolution yields on the final state, byte for byte; in particular,
with a bundled resource present and no pre-existing file and a copy that
succeeds, read returns exactly the resource contents. -/
theorem C8_read_verbatim (env : Env) :
    (∀ fs fs2 out, read_questions env fs = (fs2, .ok out) →
      ∃ P, get_questions_path env fs2 = (fs2, .ok P) ∧
        lookupFile fs2.files P = some out) ∧
    (∀ fs fs1 P rd c, get_questions_path env fs = (fs1, .ok P) →
      fs1.fileExists P = false →
      env.resource_dir = .ok rd →
      lookupFile fs1.files (rd ++ ["data", "questions.json"]) = some c →
      (fs1.failCopies.contains (rd ++ ["data", "questions.json"], P)
        || fs1.failWrites.contains P) = false →
      read_questions env fs
        = ({ fs1 with files := (P, c) :: fs1.files }, .ok c)) := by
  constructor
  · intro fs fs2 out h
    exact read_ok_cases h
  · intro fs fs1 P rd c hg hex hr hres hfail
    have hi := init_copy hg hex hr hres hfail
    exact read_eq_of hi (resolve_after_write hg) (lookupFile_cons_self _ _ _)

theorem C8_witness :
    read_questions envW fsR
      = ({ fsR with files := (["ad", "questions.json"], "BUNDLED") :: fsR.files },
         .ok "BUNDLED") :=
  (C8_read_verbatim envW).2 fsR fsR ["ad", "questions.json"] ["res"] "BUNDLED"
    rfl rfl rfl rfl rfl

/-- C3: round trip — for every text that parses as JSON, a successful
save followed by a successful read (no intervening writes) returns text
whose parse is exactly the parse of the input; only formatting may
differ. -/
theorem C3_save_read_roundtrip (env : Env) (fs fs2 fs3 : FS)
    (t msg out : String) (v : Json)
    (hp : jparse t = some v)
    (hsave : save_questions env fs t = (fs2, .ok msg))
    (hread : read_questions env fs2 = (fs3, .ok out)) :
    jparse out = some v := by
  obtain ⟨fs1, P, v2, hg, hp2, rfl⟩ := save_ok_cases hsave
  rw [hp] at hp2
  obtain rfl := Option.some.inj hp2
  have hrd := read_resolved (resolve_after_write hg)
    (lookupFile_cons_self fs1.files P (toStringPretty v))
  rw [hrd] at hread
  obtain ⟨_, h2⟩ := Prod.mk.injEq .. ▸ hread
  have hout : out = toStringPretty v := by simpa using h2.symm
  rw [hout]
  exact jparse_pretty v

theorem C3_witness :
    jparse (toStringPretty (Json.arr [Json.num 1, Json.bool true]))
      = some (Json.arr [Json.num 1, Json.bool true]) :=
  C3_save_read_roundtrip envW fsW
    ⟨[(["ad", "questions.json"],
        toStringPretty (Json.arr [Json.num 1, Json.bool true]))], [["ad"]], [], [], []⟩
    ⟨[(["ad", "questions.json"],
        toStringPretty (Json.arr [Json.num 1, Json.bool true]))], [["ad"]], [], [], []⟩
    "[1, true]"
    ("Questions saved successfully to " ++ pathRepr ["ad", "questions.json"])
    (toStringPretty (Json.arr [Json.num 1, Json.bool true]))
    (Json.arr [Json.num 1, Json.bool true])
    rfl rfl rfl

end QT
